import Mathlib

/-!
# Verification of the aviationwx.org archiver core

Shallow embedding of the archive engine of `app/archiver.py` and
`app/scheduler.py` (airport round-robin scheduling, pending-queue
construction, the resumable/integrity-checked download pipeline, retention,
idempotent saves, and the stale-lock recovery of the scheduler), together
with proofs of the specification claims about it.

Conventions of the embedding:
* Python byte strings are `List Nat`, Python ints are `Int`, wall-clock
  times and float delays are `ℚ` (the code only ever compares and adds
  them); string handling is modelled at ASCII scope, matching the data the
  archiver actually manipulates (airport codes, filenames, header values).
* Network I/O is an oracle: each HTTP interaction is a function argument
  supplying the response the Python code would have received.
* Cryptographic hashes are an abstract function argument `hashFn`; the
  code only ever compares digests for equality, never inspects them.
-/

namespace AWX

/-! ## Stable sorting keyed by a value

`list.sort(key=...)` in Python is a stable sort.  We model it by insertion
sort on the key, which is stable and produces the same list as any stable
sort by key. -/

def insertKeyed {α : Type} {κ : Type} [LinearOrder κ] (key : α → κ) (a : α) :
    List α → List α
  | [] => [a]
  | b :: l => if key a ≤ key b then a :: b :: l else b :: insertKeyed key a l

def sortKeyed {α : Type} {κ : Type} [LinearOrder κ] (key : α → κ) :
    List α → List α
  | [] => []
  | a :: l => insertKeyed key a (sortKeyed key l)

/-! ## Round-robin execution (`_run_archive_round_robin`)

The Python loop keeps a list `codes` of airport codes and a dict `queues`
of per-airport pending lists.  Each round iterates over a snapshot of
`codes`; a code whose queue is empty at its visit is removed from
rotation, otherwise the head (oldest) item of its queue is popped and
processed.  The loop ends when no code remains (the `progress` flag only
breaks out of rounds in which every remaining queue was empty, which is
exactly when the next state is empty).  We model the rotation state as an
ordered association list of `(code, queue)` pairs; the items themselves
are opaque to the scheduler, so they are a type parameter. -/

def rrRound {α β : Type} : List (β × List α) → List (β × α) × List (β × List α)
  | [] => ([], [])
  | (_, []) :: rest => rrRound rest
  | (c, i :: is) :: rest =>
      let r := rrRound rest
      ((c, i) :: r.1, (c, is) :: r.2)

/-- Termination measure: one unit per airport still in rotation plus one
per pending item. -/
def rrMeasure {α β : Type} (qs : List (β × List α)) : Nat :=
  qs.foldr (fun p acc => p.2.length + 1 + acc) 0

theorem rrMeasure_cons {α β : Type} (p : β × List α) (qs : List (β × List α)) :
    rrMeasure (p :: qs) = p.2.length + 1 + rrMeasure qs := rfl

theorem rrMeasure_round_le {α β : Type} :
    ∀ qs : List (β × List α), rrMeasure (rrRound qs).2 ≤ rrMeasure qs := by
  intro qs
  induction qs with
  | nil => exact le_refl _
  | cons p rest ih =>
      rcases p with ⟨c, q⟩
      rcases q with _ | ⟨i, is⟩
      · simp only [rrRound, rrMeasure_cons]
        omega
      · simp only [rrRound, rrMeasure_cons, List.length_cons]
        omega

theorem rrMeasure_round_lt {α β : Type} :
    ∀ qs : List (β × List α), qs ≠ [] →
      rrMeasure (rrRound qs).2 < rrMeasure qs := by
  intro qs
  induction qs with
  | nil => intro h; exact absurd rfl h
  | cons p rest ih =>
      intro _
      rcases p with ⟨c, q⟩
      rcases q with _ | ⟨i, is⟩
      · have := rrMeasure_round_le (α := α) (β := β) rest
        simp only [rrRound, rrMeasure_cons]
        omega
      · have := rrMeasure_round_le (α := α) (β := β) rest
        simp only [rrRound, rrMeasure_cons, List.length_cons]
        omega

/-- Full round-robin run with no deadline in effect (the deadline check at
the top of each round never fires).  Returns, per round, the list of
`(code, item)` pairs processed in that round. -/
def rrRun {α β : Type} : List (β × List α) → List (List (β × α))
  | [] => []
  | p :: qs =>
      (rrRound (p :: qs)).1 :: rrRun (rrRound (p :: qs)).2
termination_by qs => rrMeasure qs
decreasing_by
  exact rrMeasure_round_lt _ (by simp)

/-! ## Python string primitives (ASCII scope)

The archiver manipulates airport codes, filenames and HTTP header values,
all ASCII.  `Char.toLower`/`Char.toUpper` in Lean are ASCII case maps,
matching `str.lower()`/`str.upper()` on this data. -/

def pyLower (s : String) : String := String.mk (s.toList.map Char.toLower)

def pyUpper (s : String) : String := String.mk (s.toList.map Char.toUpper)

/-- `s.startswith(pre)`. -/
def pyStartsWith (s pre : String) : Bool := pre.toList.isPrefixOf s.toList

def isPySpace (c : Char) : Bool :=
  c == ' ' || c == '\t' || c == '\n' || c == '\r' || c == '\x0b' || c == '\x0c'

def stripList (p : Char → Bool) (cs : List Char) : List Char :=
  ((cs.dropWhile p).reverse.dropWhile p).reverse

/-- `str.strip()` with no argument: strip whitespace from both ends. -/
def pyStrip (s : String) : String := String.mk (stripList isPySpace s.toList)

/-- Index of the last occurrence of `c` (Python `str.rfind`, `None` for -1). -/
def lastIdxOf (c : Char) (cs : List Char) : Option Nat :=
  cs.enum.foldl (fun acc p => if p.2 = c then some p.1 else acc) none

def decDigitsToNat (cs : List Char) : Nat :=
  cs.foldl (fun a c => a * 10 + (c.toNat - 48)) 0

/-- Validity of the digit part of a Python `int()` literal: decimal digits
with single underscores strictly between digits. -/
def pyIntValid (cs : List Char) : Bool :=
  (cs.all fun c => c.isDigit || c == '_') &&
    (match cs.head? with | some c => c.isDigit | none => false) &&
    (match cs.getLast? with | some c => c.isDigit | none => false) &&
    ((cs.zip cs.tail).all fun p => !(p.1 == '_' && p.2 == '_'))

/-- Python `int(s)` on a decimal string: strips surrounding whitespace,
accepts an optional sign, digits and digit-group underscores; `none`
models the `ValueError` the code catches. -/
def pyInt (s : String) : Option Int :=
  let cs := stripList isPySpace s.toList
  match cs with
  | '+' :: rest =>
      if pyIntValid rest then some (decDigitsToNat (rest.filter Char.isDigit)) else none
  | '-' :: rest =>
      if pyIntValid rest then some (-(decDigitsToNat (rest.filter Char.isDigit) : Int)) else none
  | _ => if pyIntValid cs then some (decDigitsToNat (cs.filter Char.isDigit)) else none

/-- `os.path.splitext` on a bare filename: split at the last dot,
provided some earlier character of the name is not a dot (so dotfiles
like `.jpg` have no extension). -/
def splitExt (fname : String) : String × String :=
  let cs := fname.toList
  match lastIdxOf '.' cs with
  | none => (fname, "")
  | some i =>
      if (cs.take i).any (fun c => c ≠ '.') then
        (String.mk (cs.take i), String.mk (cs.drop i))
      else (fname, "")

/-- Leftmost index at which `pat` occurs in `cs`. -/
def findSubIdx (pat : List Char) : List Char → Option Nat
  | [] => if pat = [] then some 0 else none
  | c :: rest =>
      if pat.isPrefixOf (c :: rest) then some 0
      else (findSubIdx pat rest).map (· + 1)

/-! ## Existing-frame scan (`_get_existing_frames`)

The scan walks the archive tree below `output_dir`.  A file participates
when its directory lies at least five levels deep
(`AIRPORT/YYYY/MM/DD/camera`) and the first component names the airport
(case-insensitively).  A participating file whose name parses as
`{ts}_{cam}` with a frame extension is recorded as an existing frame when
it is at least `MIN_IMAGE_SIZE` bytes, and is deleted as a partial file
otherwise.  The filesystem is the list of files in walk order. -/

def MIN_IMAGE_SIZE : Nat := 256

structure ScanFile where
  dirParts : List String
  fname : String
  size : Nat
deriving DecidableEq, Repr

def frameExts : List String := [".jpg", ".jpeg", ".webp"]

/-- Filename parse of the scan: frame extension (case-insensitive), then
split at the last underscore and `int()` both parts. -/
def parseFrameName (fname : String) : Option (Int × Int) :=
  let be := splitExt fname
  if pyLower be.2 ∈ frameExts then
    let bcs := be.1.toList
    match lastIdxOf '_' bcs with
    | none => none
    | some u =>
        match pyInt (String.mk (bcs.take u)), pyInt (String.mk (bcs.drop (u + 1))) with
        | some ts, some cam => some (ts, cam)
        | _, _ => none
  else none

def scanConsiders (code : String) (f : ScanFile) : Bool :=
  match f.dirParts with
  | [] => false
  | p0 :: rest => decide (4 ≤ rest.length) && (pyUpper p0 == pyUpper code)

/-- The scan deletes exactly the frame-named files below the airport that
are smaller than `MIN_IMAGE_SIZE` (treated as partial downloads). -/
def scanDeletes (code : String) (f : ScanFile) : Bool :=
  scanConsiders code f && (parseFrameName f.fname).isSome &&
    decide (f.size < MIN_IMAGE_SIZE)

def scanStep (code : String) : List ScanFile → List (Int × Int) × List ScanFile
  | [] => ([], [])
  | f :: rest =>
      let r := scanStep code rest
      if scanConsiders code f then
        match parseFrameName f.fname with
        | some tc =>
            if f.size < MIN_IMAGE_SIZE then (r.1, r.2)
            else (tc :: r.1, f :: r.2)
        | none => (r.1, f :: r.2)
      else (r.1, f :: r.2)

/-- `_get_existing_frames`: returns the `(timestamp, cam_index)` pairs
found on disk together with the filesystem left after the scan's
partial-file cleanup. -/
def getExistingFrames (fs : List ScanFile) (code : String) :
    List (Int × Int) × List ScanFile :=
  scanStep code fs

/-! ## Webcams, history frames and the pending queue
(`fetch_history_frames`, `_collect_pending_per_airport`)

A webcam descriptor is the dict returned by the webcams API; optional
fields model absent keys, and Python truthiness of a string field is
"present and non-empty". -/

structure Webcam where
  index : Option Int
  name : Option String
  imageUrl : Option String
  url : Option String
  src : Option String
  snapshotUrl : Option String
  historyEnabled : Bool
  historyUrl : Option String
deriving DecidableEq, Repr

def optStrTruthy : Option String → Bool
  | none => false
  | some s => !(s == "")

/-- `webcam.get("index", 0)`. -/
def webcamIndex (w : Webcam) : Int := w.index.getD 0

/-- `webcam.get("history_enabled")` truthy and `webcam.get("history_url")`
truthy: the camera has an addressable history. -/
def hasAddressableHistory (w : Webcam) : Bool :=
  w.historyEnabled && optStrTruthy w.historyUrl

/-- One entry of the history API's `frames` list, fields optional as in
the JSON. -/
structure RawFrame where
  timestamp : Option Int
  url : Option String
  timestampIso : Option String
deriving DecidableEq, Repr

/-- A history frame as assembled by `fetch_history_frames`. -/
structure HistFrame where
  url : String
  timestamp : Int
  timestampIso : String
  camIndex : Int
deriving DecidableEq, Repr

/-- Scheme and host of an absolute URL (up to, not including, the first
slash after `://`). -/
def urlSchemeHost (base : String) : String :=
  let cs := base.toList
  match findSubIdx ("://".toList) cs with
  | none => ""
  | some i =>
      let after := cs.drop (i + 3)
      String.mk (cs.take (i + 3 + (after.takeWhile (fun c => c ≠ '/')).length))

/-- Models `urljoin(base, rel)` for the URL shapes the archiver passes it:
`base` is an absolute API base ending in a slash, and `rel` is either
root-relative (replacing the path of `base`) or a plain relative path
(appended to `base`).  Dot-segment resolution is out of scope. -/
def modelUrljoin (base rel : String) : String :=
  if pyStartsWith rel "/" then urlSchemeHost base ++ rel else base ++ rel

def absolutizeUrl (apiBase : String) (u : String) : String :=
  if pyStartsWith u "http" then u else modelUrljoin (apiBase ++ "/") u

/-- `fetch_history_frames`: no addressable history (or a failed request,
modelled by an empty `raw`) yields `[]`; otherwise entries with a missing
timestamp or falsy URL are dropped, URLs are absolutized against the API
base, and the result is sorted oldest-first by timestamp. -/
def fetchHistoryFrames (apiBase : String) (w : Webcam) (raw : List RawFrame) :
    List HistFrame :=
  if hasAddressableHistory w then
    sortKeyed (fun f => f.timestamp)
      (raw.filterMap fun f =>
        match f.timestamp, f.url with
        | some ts, some u =>
            if u = "" then none
            else some { url := absolutizeUrl apiBase u, timestamp := ts,
                        timestampIso := f.timestampIso.getD "", camIndex := webcamIndex w }
        | _, _ => none)
  else []

/-- The sort key of `pending.sort(...)`: a frame's timestamp, or `2 ** 63`
for the current-snapshot sentinel (`frame=None`). -/
def SENTINEL_SORT_KEY : Int := 2 ^ 63

def pendingSortKey : Webcam × Option HistFrame → Int
  | (_, some f) => f.timestamp
  | (_, none) => SENTINEL_SORT_KEY

/-- The items one webcam contributes to the pending list: its history
frames not already on disk, or a single current-snapshot sentinel when it
has no addressable history. -/
def pendingItemsFor (apiBase : String) (histApi : Webcam → List RawFrame)
    (existing : List (Int × Int)) (w : Webcam) :
    List (Webcam × Option HistFrame) :=
  if hasAddressableHistory w then
    (fetchHistoryFrames apiBase w (histApi w)).filterMap fun f =>
      if (f.timestamp, webcamIndex w) ∈ existing then none else some (w, some f)
  else [(w, none)]

def pendingUnsorted (apiBase : String) (webcams : List Webcam)
    (histApi : Webcam → List RawFrame) (existing : List (Int × Int)) :
    List (Webcam × Option HistFrame) :=
  webcams.flatMap (pendingItemsFor apiBase histApi existing)

/-- The per-airport body of `_collect_pending_per_airport`: build the
pending list webcam by webcam, then sort it by `pendingSortKey`
(Python's stable `list.sort`). -/
def collectPendingForAirport (apiBase : String) (webcams : List Webcam)
    (histApi : Webcam → List RawFrame) (existing : List (Int × Int)) :
    List (Webcam × Option HistFrame) :=
  sortKeyed pendingSortKey (pendingUnsorted apiBase webcams histApi existing)

/-! ## HTTP response headers and integrity parsers
(`_parse_content_digest`, `_parse_content_md5`, `_parse_etag_as_md5`,
`_parse_content_range_total`, `_get_integrity_check`)

Header lookup in `requests` is case-insensitive, so each header is one
optional raw string.  Digest bytes are `List Nat`. -/

structure Headers where
  contentType : Option String
  contentDigest : Option String
  contentMD5 : Option String
  etag : Option String
  contentRange : Option String
deriving DecidableEq, Repr

/-- Standard base64 alphabet membership (`[A-Za-z0-9+/]`). -/
def isB64Char (c : Char) : Bool := c.isAlphanum || c == '+' || c == '/'

def b64CharVal (c : Char) : Nat :=
  if 'A' ≤ c ∧ c ≤ 'Z' then c.toNat - 65
  else if 'a' ≤ c ∧ c ≤ 'z' then c.toNat - 97 + 26
  else if '0' ≤ c ∧ c ≤ '9' then c.toNat - 48 + 52
  else if c = '+' then 62
  else 63

def b64DecodeQuads : List Char → Option (List Nat)
  | [] => some []
  | [a, b, '=', '='] =>
      if isB64Char a ∧ isB64Char b then
        some [b64CharVal a * 4 + b64CharVal b / 16]
      else none
  | [a, b, c, '='] =>
      if isB64Char a ∧ isB64Char b ∧ isB64Char c then
        some [b64CharVal a * 4 + b64CharVal b / 16,
              b64CharVal b % 16 * 16 + b64CharVal c / 4]
      else none
  | a :: b :: c :: d :: rest =>
      if isB64Char a ∧ isB64Char b ∧ isB64Char c ∧ isB64Char d then
        match b64DecodeQuads rest with
        | some bytes =>
            some ((b64CharVal a * 4 + b64CharVal b / 16) ::
                  (b64CharVal b % 16 * 16 + b64CharVal c / 4) ::
                  (b64CharVal c % 4 * 64 + b64CharVal d) :: bytes)
        | none => none
      else none
  | _ => none

/-- Models `base64.b64decode(s)` (`validate=False`) on the inputs the
archiver meets: characters outside the alphabet are discarded, the length
must then be a multiple of four, and `=` padding is accepted at the end
of the data; `none` models the `binascii.Error` the code catches. -/
def pyB64Decode (s : List Char) : Option (List Nat) :=
  let t := s.filter (fun c => isB64Char c || c == '=')
  if t.length % 4 = 0 then b64DecodeQuads t else none

def stripLit (lit : List Char) (s : List Char) : Option (List Char) :=
  if lit.isPrefixOf s then some (s.drop lit.length) else none

def b64TokenChar (c : Char) : Bool := isB64Char c || c == '='

/-- Match the regular expression
`algo \s* = \s* : ([A-Za-z0-9+/=]+) :` anchored at the start of `s`,
returning the capture.  The character class excludes `:`, so the greedy
run followed by a `:` is the only possible match. -/
def matchDigestAt (algo : List Char) (s : List Char) : Option (List Char) :=
  match stripLit algo s with
  | none => none
  | some s1 =>
      match stripLit ['='] (s1.dropWhile isPySpace) with
      | none => none
      | some s3 =>
          match stripLit [':'] (s3.dropWhile isPySpace) with
          | none => none
          | some s5 =>
              let cap := s5.takeWhile b64TokenChar
              if cap = [] then none
              else match s5.drop cap.length with
                | ':' :: _ => some cap
                | _ => none

/-- `re.search`: the leftmost match wins. -/
def searchDigest (algo : List Char) : List Char → Option (List Char)
  | [] => none
  | c :: rest =>
      match matchDigestAt algo (c :: rest) with
      | some cap => some cap
      | none => searchDigest algo rest

/-- One iteration of the `_parse_content_digest` loop body for a single
algorithm: find the token, base64-decode it, and require a non-empty
digest (decode errors and empty digests fall through to the next
algorithm). -/
def digestToken (algo : String) (raw : String) : Option (List Nat) :=
  match searchDigest algo.toList raw.toList with
  | some cap =>
      match pyB64Decode cap with
      | some digest => if digest = [] then none else some digest
      | none => none
  | none => none

def digestAlgos : List String := ["sha-256", "sha-512", "md5"]

def firstDigestAlgo : List String → String → Option (String × List Nat)
  | [], _ => none
  | algo :: rest, raw =>
      match digestToken algo raw with
      | some d => some (algo, d)
      | none => firstDigestAlgo rest raw

/-- `_parse_content_digest` (RFC 9530): first supported algorithm in the
preference order sha-256 > sha-512 > md5. -/
def parseContentDigest (h : Headers) : Option (String × List Nat) :=
  match h.contentDigest with
  | none => none
  | some raw => if raw = "" then none else firstDigestAlgo digestAlgos raw

/-- `_parse_content_md5` (RFC 1864): base64 of exactly 16 digest bytes. -/
def parseContentMD5 (h : Headers) : Option (List Nat) :=
  match h.contentMD5 with
  | none => none
  | some raw =>
      if raw = "" then none
      else
        match pyB64Decode (stripList isPySpace raw.toList) with
        | some digest => if digest.length = 16 then some digest else none
        | none => none

def isHexChar (c : Char) : Bool :=
  c.isDigit || ('a' ≤ c && c ≤ 'f') || ('A' ≤ c && c ≤ 'F')

def hexVal (c : Char) : Nat :=
  if c.isDigit then c.toNat - 48
  else if 'a' ≤ c ∧ c ≤ 'f' then c.toNat - 97 + 10
  else c.toNat - 65 + 10

def hexPairsToBytes : List Char → List Nat
  | a :: b :: rest => (hexVal a * 16 + hexVal b) :: hexPairsToBytes rest
  | _ => []

/-- The quote-and-whitespace-stripped ETag value. -/
def strippedEtag (raw : String) : List Char :=
  stripList (fun c => c == '"') (stripList isPySpace raw.toList)

/-- `_parse_etag_as_md5`: an ETag that is exactly 32 hex characters after
stripping whitespace and quotes is treated as an MD5 hex digest. -/
def parseEtagAsMD5 (h : Headers) : Option (List Nat) :=
  match h.etag with
  | none => none
  | some raw =>
      if raw = "" then none
      else
        let etag := strippedEtag raw
        if etag.length = 32 ∧ etag.all isHexChar then
          some (hexPairsToBytes etag)
        else none

/-- `_get_integrity_check`: Content-Digest first, then Content-MD5, then
an MD5-shaped ETag; `none` means no verification is possible. -/
def getIntegrityCheck (h : Headers) : Option (String × List Nat) :=
  match parseContentDigest h with
  | some p => some p
  | none =>
      match parseContentMD5 h with
      | some d => some ("md5", d)
      | none =>
          match parseEtagAsMD5 h with
          | some d => some ("md5", d)
          | none => none

/-- `_parse_content_range_total`: the total after the slash of
`bytes start-end/total` (case-insensitive `bytes`, leftmost match). -/
def matchContentRangeAt (s : List Char) : Option Nat :=
  match stripLit ['b', 'y', 't', 'e', 's'] (s.map Char.toLower) with
  | none => none
  | some s1 =>
      let sp := s1.takeWhile isPySpace
      if sp = [] then none
      else
        let s2 := s1.drop sp.length
        let d1 := s2.takeWhile Char.isDigit
        if d1 = [] then none
        else
          match s2.drop d1.length with
          | '-' :: s3 =>
              let d2 := s3.takeWhile Char.isDigit
              if d2 = [] then none
              else
                match s3.drop d2.length with
                | '/' :: s4 =>
                    let d3 := s4.takeWhile Char.isDigit
                    if d3 = [] then none else some (decDigitsToNat d3)
                | _ => none
          | _ => none

def searchContentRange : List Char → Option Nat
  | [] => none
  | c :: rest =>
      match matchContentRangeAt (c :: rest) with
      | some n => some n
      | none => searchContentRange rest

def parseContentRangeTotal (h : Headers) : Option Nat :=
  match h.contentRange with
  | none => none
  | some raw => if raw = "" then none else searchContentRange raw.toList

/-! ## Rate limiting and the download pipeline
(`_rate_limit`, `download_image_to_file`)

The per-source config is the part of the `source` dict the pipeline
reads and writes: the one-shot `_skip_next_rate_limit` flag, the delays,
and the retry parameters.  HTTP responses come from a per-attempt oracle;
a `fail` is a `requests.RequestException` raised by the request itself. -/

def DEFAULT_REQUEST_DELAY_SECONDS : ℚ := 6 / 5

structure SrcConfig where
  skipNextRateLimit : Bool
  requestDelayDetected : Option ℚ
  requestDelayConfigured : Option ℚ
  maxRetries : Nat
  retryDelay : ℚ
deriving DecidableEq, Repr

/-- `_rate_limit`: pops the one-shot skip flag — when it was set, returns
immediately with no sleep; otherwise sleeps the detected delay (falling
back to the configured one, then the 1.2 s default) when positive.  The
second component is the sleep performed, if any. -/
def rate_limit (c : SrcConfig) : SrcConfig × Option ℚ :=
  if c.skipNextRateLimit then ({ c with skipNextRateLimit := false }, none)
  else
    let delay := c.requestDelayDetected.getD
      (c.requestDelayConfigured.getD DEFAULT_REQUEST_DELAY_SECONDS)
    (c, if 0 < delay then some delay else none)

inductive Fetch where
  | fail
  | ok (status : Nat) (headers : Headers) (body : List Nat)

/-- `resp.headers.get("content-type", "").startswith("image/")`. -/
def contentTypeIsImage (h : Headers) : Bool :=
  pyStartsWith (h.contentType.getD "") "image/"

structure DLResult where
  ok : Bool
  file : Option (List Nat)
  cfg : SrcConfig
  requests : Nat
deriving Repr

/-- Retry loop of `download_image_to_file`.  `fetch` is the per-attempt
response oracle, `hashFn` the digest oracle modelling
`hashlib.new(algo)` over the file's bytes, `remaining` the attempts
left, `attempt` the 1-based attempt number, `file` the content at the
destination (`none` when absent), `existingSize` the resume-offset
variable, and `reqs` the count of HTTP requests issued so far.  Branches
in source order: 404/410 fail-fast with the skip-next-rate-limit signal;
`raise_for_status` on 4xx/5xx (retryable); non-image content type
returns failure leaving the file as it was; then the body is appended
(206 resume) or written fresh, the 206 size is checked against the
Content-Range total, and a full response is checked against the selected
integrity header; mismatches delete the file and retry. -/
def downloadLoop (hashFn : String → List Nat → List Nat) (fetch : Nat → Fetch) :
    Nat → Nat → SrcConfig → Option (List Nat) → Nat → Nat → DLResult
  | 0, _, cfg, _, _, reqs => { ok := false, file := none, cfg := cfg, requests := reqs }
  | remaining + 1, attempt, cfg0, file, existingSize, reqs =>
      let cfg := (rate_limit cfg0).1
      match fetch attempt with
      | .fail =>
          downloadLoop hashFn fetch remaining (attempt + 1) cfg none 0 (reqs + 1)
      | .ok status h body =>
          if status = 404 ∨ status = 410 then
            { ok := false, file := none,
              cfg := { cfg with skipNextRateLimit := true }, requests := reqs + 1 }
          else if 400 ≤ status then
            downloadLoop hashFn fetch remaining (attempt + 1) cfg none 0 (reqs + 1)
          else if ¬ contentTypeIsImage h then
            { ok := false, file := file, cfg := cfg, requests := reqs + 1 }
          else
            let newFile :=
              if 0 < existingSize ∧ status = 206 then file.getD [] ++ body else body
            if status = 206 then
              match parseContentRangeTotal h with
              | none =>
                  { ok := true, file := some newFile, cfg := cfg, requests := reqs + 1 }
              | some total =>
                  if newFile.length ≠ total then
                    downloadLoop hashFn fetch remaining (attempt + 1) cfg none 0 (reqs + 1)
                  else
                    { ok := true, file := some newFile, cfg := cfg, requests := reqs + 1 }
            else
              match getIntegrityCheck h with
              | some ad =>
                  if hashFn ad.1 newFile = ad.2 then
                    { ok := true, file := some newFile, cfg := cfg, requests := reqs + 1 }
                  else
                    downloadLoop hashFn fetch remaining (attempt + 1) cfg none 0 (reqs + 1)
              | none =>
                  { ok := true, file := some newFile, cfg := cfg, requests := reqs + 1 }

/-- `download_image_to_file`: a pre-existing file smaller than
`MIN_IMAGE_SIZE` is deleted up front (resume offset 0), then the bounded
retry loop runs; exhaustion deletes any partial file and reports
failure. -/
def download_image_to_file (hashFn : String → List Nat → List Nat)
    (fetch : Nat → Fetch) (cfg : SrcConfig) (file0 : Option (List Nat)) : DLResult :=
  let pre : Option (List Nat) × Nat :=
    match file0 with
    | none => (none, 0)
    | some content =>
        if content.length < MIN_IMAGE_SIZE then (none, 0)
        else (some content, content.length)
  downloadLoop hashFn fetch cfg.maxRetries 1 cfg pre.1 pre.2 0

/-! ## Retention (`apply_retention`, `parse_storage_gb`,
`_collect_archive_files`)

The archive is the list of its files in walk order; a file is its path,
basename, mtime and size. -/

def BYTES_PER_GIB : Nat := 1024 ^ 3

def SECONDS_PER_DAY : Nat := 86400

/-- Worker for `str.replace(pat, "")`: `skip` counts characters of a
matched occurrence still to be consumed. -/
def removeAllSubAux (pat : List Char) : Nat → List Char → List Char
  | _, [] => []
  | skip + 1, _ :: rest => removeAllSubAux pat skip rest
  | 0, c :: rest =>
      if pat ≠ [] ∧ pat.isPrefixOf (c :: rest) then
        removeAllSubAux pat (pat.length - 1) rest
      else c :: removeAllSubAux pat 0 rest

/-- Remove all occurrences of `pat` from `cs`, left to right
(`str.replace(pat, "")`). -/
def removeAllSub (pat : List Char) (cs : List Char) : List Char :=
  removeAllSubAux pat 0 cs

def containsSub (pat : List Char) (cs : List Char) : Bool := (findSubIdx pat cs).isSome

/-- Split a numeric literal at the first `e`/`E` (exponent marker). -/
def splitAtExp (cs : List Char) : List Char × Option (List Char) :=
  let m := cs.takeWhile (fun c => !(c == 'e' || c == 'E'))
  match cs.drop m.length with
  | [] => (m, none)
  | _ :: rest => (m, some rest)

def parseMantissa (cs : List Char) : Option ℚ :=
  let intPart := cs.takeWhile Char.isDigit
  match cs.drop intPart.length with
  | [] => if intPart = [] then none else some (decDigitsToNat intPart : ℚ)
  | '.' :: frac =>
      let fracD := frac.takeWhile Char.isDigit
      if frac.drop fracD.length ≠ [] then none
      else if intPart = [] ∧ fracD = [] then none
      else some ((decDigitsToNat intPart : ℚ) +
        (decDigitsToNat fracD : ℚ) / ((10 : ℚ) ^ fracD.length))
  | _ => none

def parseSignedIntLit (cs : List Char) : Option Int :=
  match cs with
  | '+' :: rest =>
      if rest ≠ [] ∧ rest.all Char.isDigit then some (decDigitsToNat rest) else none
  | '-' :: rest =>
      if rest ≠ [] ∧ rest.all Char.isDigit then some (-(decDigitsToNat rest : Int))
      else none
  | _ => if cs ≠ [] ∧ cs.all Char.isDigit then some (decDigitsToNat cs) else none

/-- Models Python `float(s)` on finite decimal literals (optional sign,
digits with an optional fraction, optional exponent); `none` models the
`ValueError` the code catches.  Special values (`inf`, `nan`) and
underscore separators are out of scope. -/
def pyFloat (s : String) : Option ℚ :=
  let cs := stripList isPySpace s.toList
  let sign : ℚ × List Char :=
    match cs with
    | '+' :: rest => (1, rest)
    | '-' :: rest => (-1, rest)
    | _ => (1, cs)
  let me := splitAtExp sign.2
  match parseMantissa me.1 with
  | none => none
  | some m =>
      match me.2 with
      | none => some (sign.1 * m)
      | some ecs =>
          match parseSignedIntLit ecs with
          | none => none
          | some e => some (sign.1 * m * (10 : ℚ) ^ e)

/-- `parse_storage_gb` on a string: `"1TB"`-style values convert to
`1024` (GB), `"GB"` suffixes are stripped, anything unparsable is `0`
(disabled), and negatives clamp to `0`. -/
def parse_storage_gb (value : String) : ℚ :=
  if value = "" then 0
  else
    let s := pyUpper (pyStrip value)
    if s = "" then 0
    else
      let cs := s.toList
      if containsSub ['T', 'B'] cs then
        match pyFloat (String.mk
            (stripList isPySpace (removeAllSub [' '] (removeAllSub ['T', 'B'] cs)))) with
        | some num => max 0 (num * 1024)
        | none => 0
      else
        let cs2 :=
          if containsSub ['G', 'B'] cs then
            stripList isPySpace (removeAllSub [' '] (removeAllSub ['G', 'B'] cs))
          else cs
        match pyFloat (String.mk cs2) with
        | some num => max 0 num
        | none => 0

/-- `archive.retention_max_gb`: the config value is either a string (to
be parsed) or a number. -/
inductive GbValue where
  | str (s : String)
  | num (q : ℚ)
deriving DecidableEq, Repr

def gbToRat : GbValue → ℚ
  | .str s => parse_storage_gb s
  | .num q => q

/-- `int(retention_max_gb * BYTES_PER_GIB) if retention_max_gb > 0 else 0`
(`int()` truncates; the value is positive, so it floors). -/
def retentionMaxBytes (gb : ℚ) : Int :=
  if 0 < gb then Int.floor (gb * (BYTES_PER_GIB : ℚ)) else 0

structure RFile where
  path : String
  fname : String
  mtime : ℚ
  size : Nat
deriving DecidableEq, Repr

/-- `_collect_archive_files`: every file except `metadata.json`. -/
def collectArchiveFiles (fs : List RFile) : List RFile :=
  fs.filter (fun f => !(f.fname == "metadata.json"))

/-- `sum(s for _, _, s in files)` as an integer byte count. -/
def sumSizes (l : List RFile) : Int := (l.map (fun f => (f.size : Int))).sum

/-- Age-phase deletion test: not metadata and strictly older than the
cutoff `now - retention_days * 86400`. -/
def agePhaseDeletes (now : ℚ) (retentionDays : Int) (f : RFile) : Bool :=
  !(f.fname == "metadata.json") &&
    decide (f.mtime < now - (retentionDays : ℚ) * (SECONDS_PER_DAY : ℚ))

/-- The size-phase victim selection: walk the mtime-sorted candidates,
stopping as soon as the bytes removed so far reach the overage. -/
def sizePhaseTake (toRemove : Int) : Int → List RFile → List RFile
  | _, [] => []
  | removed, f :: rest =>
      if toRemove ≤ removed then []
      else f :: sizePhaseTake toRemove (removed + (f.size : Int)) rest

/-- `apply_retention`: both phases, each gated by its budget; returns the
number of deletions and the remaining filesystem.  The GB budget is
parsed when it is a string and normalized to bytes. -/
def apply_retention (retentionDays : Int) (retentionMaxGbRaw : GbValue)
    (outputDirExists : Bool) (now : ℚ) (fs : List RFile) : Nat × List RFile :=
  let gb := gbToRat retentionMaxGbRaw
  let maxBytes := retentionMaxBytes gb
  if retentionDays ≤ 0 ∧ maxBytes ≤ 0 then (0, fs)
  else if ¬ outputDirExists then (0, fs)
  else
    let fs1 :=
      if 0 < retentionDays then fs.filter (fun f => !agePhaseDeletes now retentionDays f)
      else fs
    let agedDeleted :=
      if 0 < retentionDays then (fs.filter (agePhaseDeletes now retentionDays)).length
      else 0
    if 0 < maxBytes then
      let collected := sortKeyed (fun f => f.mtime) (collectArchiveFiles fs1)
      let total : Int := sumSizes collected
      let toRemove := total - maxBytes
      if 0 < toRemove then
        let victims := sizePhaseTake toRemove 0 collected
        (agedDeleted + victims.length,
         fs1.filter (fun f => !((victims.map RFile.path).contains f.path)))
      else (agedDeleted, fs1)
    else (agedDeleted, fs1)

/-- The files the size phase sees, oldest mtime first. -/
def retSorted (fs : List RFile) : List RFile :=
  sortKeyed (fun f => f.mtime) (collectArchiveFiles fs)

/-- `to_remove`: the overage over the byte budget. -/
def retOverage (gb : GbValue) (fs : List RFile) : Int :=
  sumSizes (retSorted fs) - retentionMaxBytes (gbToRat gb)

/-- The files the size phase deletes. -/
def retVictims (gb : GbValue) (fs : List RFile) : List RFile :=
  sizePhaseTake (retOverage gb fs) 0 (retSorted fs)

/-! ## Idempotent saves (`save_image`, `save_history_image`)

The archive filesystem for saves is an association list from paths to
file records; `md5hex` is the digest oracle for `hashlib.md5(...)
.hexdigest()` and `_file_md5`. -/

structure FileRec where
  content : List Nat
  mode : Nat
  mtime : ℚ
deriving DecidableEq, Repr

abbrev SaveFS := List (String × FileRec)

def fsLookup (fs : SaveFS) (path : String) : Option FileRec :=
  match fs with
  | [] => none
  | (p, r) :: rest => if p = path then some r else fsLookup rest path

def fsSet (fs : SaveFS) (path : String) (r : FileRec) : SaveFS :=
  match fs with
  | [] => [(path, r)]
  | (p, r0) :: rest =>
      if p = path then (p, r) :: rest else (p, r0) :: fsSet rest path r

def joinPath : List String → String
  | [] => ""
  | [p] => p
  | p :: rest => p ++ "/" ++ joinPath rest

def padZeros (w : Nat) (n : Nat) : String :=
  let s := toString n
  String.mk (List.replicate (w - s.length) '0') ++ s

/-- Worker for the underscore-run collapse: the flag records whether the
previous kept character was an underscore. -/
def collapseAux : Bool → List Char → List Char
  | _, [] => []
  | prev, c :: rest =>
      if c = '_' then
        if prev then collapseAux true rest else '_' :: collapseAux true rest
      else c :: collapseAux false rest

/-- Runs of underscores collapse to a single underscore (the
`while "__" in safe` loop). -/
def collapseUnderscoreRuns (cs : List Char) : List Char := collapseAux false cs

/-- `_sanitize_camera_name` (ASCII scope for `isalnum`): lowercase,
spaces to underscores, other unsafe characters to underscores, collapse
runs, strip edge underscores, fall back when empty. -/
def sanitizeCameraName (name : String) (fallback : String) : String :=
  if name = "" then fallback
  else
    let safe := (pyLower name).toList.map (fun c => if c = ' ' then '_' else c)
    let safe2 := safe.map (fun c => if c.isAlphanum || c = '_' then c else '_')
    let stripped := stripList (fun c => c == '_') (collapseUnderscoreRuns safe2)
    if stripped = [] then fallback else String.mk stripped

/-- Proleptic-Gregorian date from a day count since the Unix epoch
(`datetime.fromtimestamp(ts, tz=utc)`'s calendar part). -/
def civilFromDays (z0 : Int) : Int × Nat × Nat :=
  let z := z0 + 719468
  let era := z.ediv 146097
  let doe := (z - era * 146097).toNat
  let yoe := (doe - doe / 1460 + doe / 36524 - doe / 146096) / 365
  let y := (yoe : Int) + era * 400
  let doy := doe - (365 * yoe + yoe / 4 - yoe / 100)
  let mp := (5 * doy + 2) / 153
  let d := doy - (153 * mp + 2) / 5 + 1
  let m := if mp < 10 then mp + 3 else mp - 9
  (if m ≤ 2 then y + 1 else y, m, d)

/-- A UTC datetime with its epoch value (`.timestamp()`). -/
structure PyDateTime where
  year : Nat
  month : Nat
  day : Nat
  hour : Nat
  minute : Nat
  second : Nat
  epoch : ℚ
deriving DecidableEq, Repr

def utcFromTimestamp (ts : Int) : PyDateTime :=
  let days := ts.ediv 86400
  let secs := (ts.emod 86400).toNat
  let ymd := civilFromDays days
  { year := ymd.1.toNat, month := ymd.2.1, day := ymd.2.2,
    hour := secs / 3600, minute := secs % 3600 / 60, second := secs % 60,
    epoch := (ts : ℚ) }

/-- `urlparse(url).path` for http(s) URLs and plain paths: strip the
fragment and query, then everything up to the first slash after
`://`. -/
def urlPathOf (url : String) : String :=
  let cs := (url.toList.takeWhile (fun c => c ≠ '#')).takeWhile (fun c => c ≠ '?')
  match findSubIdx ("://".toList) cs with
  | none => String.mk cs
  | some i => String.mk ((cs.drop (i + 3)).dropWhile (fun c => c ≠ '/'))

def pyBasename (p : String) : String :=
  let cs := p.toList
  match lastIdxOf '/' cs with
  | none => p
  | some i => String.mk (cs.drop (i + 1))

/-- The destination path `save_image` computes:
`output_dir/AIRPORT/YYYY/MM/DD/camera/{YYYYMMDD_HHMMSS}_{url_basename}`. -/
def saveImagePath (outputDir airportCode url : String) (t : PyDateTime)
    (cameraName : Option String) : String :=
  let camSafe := sanitizeCameraName (cameraName.getD "") "current"
  let datePath := joinPath [outputDir, pyUpper airportCode,
    padZeros 4 t.year, padZeros 2 t.month, padZeros 2 t.day, camSafe]
  let base0 := pyBasename (urlPathOf url)
  let base := if base0 = "" then "image" else base0
  let tsPart := padZeros 4 t.year ++ padZeros 2 t.month ++ padZeros 2 t.day ++ "_" ++
    padZeros 2 t.hour ++ padZeros 2 t.minute ++ padZeros 2 t.second
  datePath ++ "/" ++ tsPart ++ "_" ++ base

/-- `save_image`: compute the path, and when a file with identical
content hash already exists there, return it untouched (dedup); otherwise
write the bytes with mode `0o644` and mtime set to the capture
timestamp. -/
def save_image (md5hex : List Nat → String) (fs : SaveFS) (imageData : List Nat)
    (url airportCode outputDir : String) (timestamp : PyDateTime)
    (cameraName : Option String) : SaveFS × Option String :=
  let fpath := saveImagePath outputDir airportCode url timestamp cameraName
  match fsLookup fs fpath with
  | some r =>
      if md5hex r.content = md5hex imageData then (fs, some fpath)
      else
        (fsSet fs fpath { content := imageData, mode := 420, mtime := timestamp.epoch },
         some fpath)
  | none =>
      (fsSet fs fpath { content := imageData, mode := 420, mtime := timestamp.epoch },
       some fpath)

/-- The destination path `save_history_image` computes:
`output_dir/AIRPORT/YYYY/MM/DD/camera/{ts}_{cam}.jpg`, with the date
derived from the frame timestamp. -/
def saveHistoryPath (outputDir airportCode : String) (camIndex frameTs : Int)
    (cameraName : Option String) : String :=
  let camSafe := sanitizeCameraName (cameraName.getD "") ("cam_" ++ toString camIndex)
  let dt := utcFromTimestamp frameTs
  let datePath := joinPath [outputDir, pyUpper airportCode,
    padZeros 4 dt.year, padZeros 2 dt.month, padZeros 2 dt.day, camSafe]
  datePath ++ "/" ++ toString frameTs ++ "_" ++ toString camIndex ++ ".jpg"

/-- `save_history_image`: as `save_image`, with the `{ts}_{cam}.jpg`
filename and the mtime set to the frame timestamp. -/
def save_history_image (md5hex : List Nat → String) (fs : SaveFS)
    (imageData : List Nat) (airportCode : String) (camIndex frameTs : Int)
    (outputDir : String) (cameraName : Option String) : SaveFS × Option String :=
  let fpath := saveHistoryPath outputDir airportCode camIndex frameTs cameraName
  match fsLookup fs fpath with
  | some r =>
      if md5hex r.content = md5hex imageData then (fs, some fpath)
      else
        (fsSet fs fpath { content := imageData, mode := 420, mtime := (frameTs : ℚ) },
         some fpath)
  | none =>
      (fsSet fs fpath { content := imageData, mode := 420, mtime := (frameTs : ℚ) },
       some fpath)

/-! ## One archive pass (`run_archive`) and its collaborators
(`_airport_code`, `select_airports`, `_webcam_to_image_url`,
`_collect_pending_per_airport`, `_run_archive_round_robin`,
`_run_archive_current_only`)

The pass model is oracle-driven: upstream HTTP responses and the
outcomes of the individual downloads are supplied by `PassEnv`, and the
wall-clock readings `time.time()` produces at the deadline checks are
the `now`/`roundTimes`/`legacyTimes` oracles.  Retention operates on the
`RFile` view of the archive. -/

structure Airport where
  code : Option String
  id : Option String
  icao : Option String
deriving DecidableEq, Repr

def firstTruthyStr : List (Option String) → String
  | [] => ""
  | some s :: rest => if s = "" then firstTruthyStr rest else s
  | none :: rest => firstTruthyStr rest

/-- `_airport_code`: `code or id or icao or ""` with Python truthiness. -/
def airport_code (a : Airport) : String := firstTruthyStr [a.code, a.id, a.icao]

/-- `select_airports`: everything under `archive_all`, otherwise the
case-insensitive filter against the selected codes (empty selection
selects nothing). -/
def select_airports (allAirports : List Airport) (archiveAll : Bool)
    (selected : List String) : List Airport :=
  if archiveAll then allAirports
  else
    let selectedCodes := selected.map pyUpper
    if selectedCodes = [] then []
    else allAirports.filter (fun a => pyUpper (airport_code a) ∈ selectedCodes)

def firstTruthyOpt : List (Option String) → Option String
  | [] => none
  | some s :: rest => if s = "" then firstTruthyOpt rest else some s
  | none :: rest => firstTruthyOpt rest

/-- `_webcam_to_image_url`: the first truthy of
`image_url`/`url`/`src`/`snapshot_url`, absolutized against the API
base. -/
def webcam_to_image_url (apiBase : String) (w : Webcam) : Option String :=
  match firstTruthyOpt [w.imageUrl, w.url, w.src, w.snapshotUrl] with
  | none => none
  | some v => some (absolutizeUrl apiBase v)

structure PassStats where
  airportsProcessed : Nat
  imagesFetched : Nat
  imagesSaved : Nat
  errors : Nat
  timedOut : Bool
deriving DecidableEq, Repr

def initStats : PassStats :=
  { airportsProcessed := 0, imagesFetched := 0, imagesSaved := 0,
    errors := 0, timedOut := false }

/-- The oracles one pass consumes: upstream data per airport, download
outcomes per work item, and the wall-clock readings of the deadline
checks. -/
structure PassEnv where
  allAirports : List Airport
  webcamsOf : String → List Webcam
  histApi : String → Webcam → List RawFrame
  saveHistOk : String → HistFrame → Bool
  saveCurrOk : String → Webcam → Bool
  imageUrlsOf : String → List String
  saveUrlOk : String → String → Bool
  now : ℚ
  roundTimes : Nat → ℚ
  legacyTimes : Nat → ℚ

def deadlineReached (deadline : Option ℚ) (t : ℚ) : Bool :=
  match deadline with
  | none => false
  | some d => decide (d ≤ t)

/-- Processing of one popped `(webcam, frame)` item inside the
round-robin loop: fetched/saved counters driven by the download-outcome
oracles; a sentinel with no resolvable image URL counts nothing. -/
def processItem (env : PassEnv) (apiBase : String) (code : String)
    (it : Webcam × Option HistFrame) (stats : PassStats) : PassStats :=
  match it.2 with
  | some f =>
      let s1 := { stats with imagesFetched := stats.imagesFetched + 1 }
      if env.saveHistOk code f then { s1 with imagesSaved := s1.imagesSaved + 1 }
      else s1
  | none =>
      match webcam_to_image_url apiBase it.1 with
      | some _ =>
          let s1 := { stats with imagesFetched := stats.imagesFetched + 1 }
          if env.saveCurrOk code it.1 then { s1 with imagesSaved := s1.imagesSaved + 1 }
          else s1
      | none => stats

/-- One round of `_run_archive_round_robin`, also threading the stats
through the items processed (same rotation discipline as `rrRound`). -/
def rrStatsRound (env : PassEnv) (apiBase : String) :
    List (String × List (Webcam × Option HistFrame)) → PassStats →
    List (String × List (Webcam × Option HistFrame)) × PassStats
  | [], stats => ([], stats)
  | (_, []) :: rest, stats => rrStatsRound env apiBase rest stats
  | (c, it :: is) :: rest, stats =>
      let stats1 := processItem env apiBase c it stats
      let r := rrStatsRound env apiBase rest stats1
      ((c, is) :: r.1, r.2)

theorem rrStatsRound_fst (env : PassEnv) (apiBase : String) :
    ∀ (qs : List (String × List (Webcam × Option HistFrame))) (stats : PassStats),
      (rrStatsRound env apiBase qs stats).1 = (rrRound qs).2 := by
  intro qs
  induction qs with
  | nil => intro stats; rfl
  | cons p rest ih =>
      intro stats
      rcases p with ⟨c, q⟩
      rcases q with _ | ⟨i, is⟩
      · exact ih stats
      · simp only [rrStatsRound, rrRound]
        rw [ih]

/-- The full round-robin loop with the per-round deadline check
(`while codes: if deadline reached: return`). -/
def rrStatsRun (env : PassEnv) (apiBase : String) (deadline : Option ℚ) :
    Nat → List (String × List (Webcam × Option HistFrame)) → PassStats →
    List (String × List (Webcam × Option HistFrame)) × PassStats
  | _, [], stats => ([], stats)
  | roundIdx, q :: qs, stats =>
      if deadlineReached deadline (env.roundTimes roundIdx) then (q :: qs, stats)
      else
        let r := rrStatsRound env apiBase (q :: qs) stats
        rrStatsRun env apiBase deadline (roundIdx + 1) r.1 r.2
termination_by _ qs => rrMeasure qs
decreasing_by
  rw [rrStatsRound_fst]
  exact rrMeasure_round_lt _ (by simp)

/-- `_collect_pending_per_airport`: per airport in order — skip empty
codes and airports whose webcam setup yields nothing; scan the archive
for existing frames (threading the scan's partial-file deletions through
the filesystem); build and sort the pending list; record it only when
non-empty.  Returns (queues, processed airport codes, filesystem after
the scans). -/
def collectPendingPerAirport (env : PassEnv) (apiBase : String) :
    List Airport → List ScanFile →
    List (String × List (Webcam × Option HistFrame)) × List String × List ScanFile
  | [], fs => ([], [], fs)
  | a :: rest, fs =>
      let code := airport_code a
      if code = "" then collectPendingPerAirport env apiBase rest fs
      else
        let webcams := env.webcamsOf code
        if webcams = [] then collectPendingPerAirport env apiBase rest fs
        else
          let scan := getExistingFrames fs code
          let pending := collectPendingForAirport apiBase webcams (env.histApi code) scan.1
          let r := collectPendingPerAirport env apiBase rest scan.2
          (if pending ≠ [] then (code, pending) :: r.1 else r.1,
           code :: r.2.1, r.2.2)

/-- `_run_archive_current_only`: current image per webcam when the
webcams API yields any, otherwise the scraped image-URL fallback. -/
def runCurrentOnly (env : PassEnv) (apiBase : String) (code : String)
    (stats : PassStats) : PassStats :=
  let webcams := env.webcamsOf code
  if webcams ≠ [] then
    webcams.foldl (fun st w =>
      match webcam_to_image_url apiBase w with
      | none => st
      | some _ =>
          let s1 := { st with imagesFetched := st.imagesFetched + 1 }
          if env.saveCurrOk code w then { s1 with imagesSaved := s1.imagesSaved + 1 }
          else s1) stats
  else
    (env.imageUrlsOf code).foldl (fun st u =>
      let s1 := { st with imagesFetched := st.imagesFetched + 1 }
      if env.saveUrlOk code u then { s1 with imagesSaved := s1.imagesSaved + 1 }
      else s1) stats

/-- The history-API (round-robin) path of `run_archive` after the
deadline check: collect queues, count processed airports, run the
round-robin, flag `timed_out` when a deadline is set and queues remain,
then handle airports without webcams in current-only mode. -/
def runHistoryPath (env : PassEnv) (apiBase : String) (airports : List Airport)
    (scanFs : List ScanFile) (deadline : Option ℚ) (stats0 : PassStats) : PassStats :=
  let col := collectPendingPerAirport env apiBase airports scanFs
  let stats1 := { stats0 with airportsProcessed := col.2.1.length }
  let rr := rrStatsRun env apiBase deadline 0 col.1 stats1
  let stats2 :=
    if deadline.isSome ∧ rr.1.any (fun q => !q.2.isEmpty) then
      { rr.2 with timedOut := true }
    else rr.2
  let withoutW := airports.filter
    (fun a => airport_code a ≠ "" ∧ airport_code a ∉ col.2.1)
  let stats3 :=
    { stats2 with airportsProcessed := stats2.airportsProcessed + withoutW.length }
  withoutW.foldl (fun st a => runCurrentOnly env apiBase (airport_code a) st) stats3

/-- The legacy (current-only) path of `run_archive`: per-airport deadline
check, then setup and current-only archiving. -/
def runLegacyPath (env : PassEnv) (apiBase : String) (deadline : Option ℚ) :
    Nat → List Airport → PassStats → PassStats
  | _, [], stats => stats
  | idx, a :: rest, stats =>
      if deadlineReached deadline (env.legacyTimes idx) then
        { stats with timedOut := true }
      else
        let code := airport_code a
        if code = "" then runLegacyPath env apiBase deadline (idx + 1) rest stats
        else
          let stats1 :=
            { stats with airportsProcessed := stats.airportsProcessed + 1 }
          runLegacyPath env apiBase deadline (idx + 1) rest
            (runCurrentOnly env apiBase code stats1)

structure RunResult where
  stats : PassStats
  retentionRan : Bool
  deletedByRetention : Nat
  rfs : List RFile
deriving Repr

/-- `run_archive`: one full pass.  Empty upstream airport list or empty
selection abort early (no retention); a deadline already reached at the
check returns `timed_out` with the retention pass still applied; the
history or legacy path otherwise runs, and retention closes the pass. -/
def run_archive (env : PassEnv) (apiBase : String) (archiveAll : Bool)
    (selected : List String) (useHistory : Bool) (jobTimeoutMinutes : Int)
    (retentionDays : Int) (retentionMaxGb : GbValue) (outputDirExists : Bool)
    (scanFs : List ScanFile) (rfs : List RFile) (deadline0 : Option ℚ) :
    RunResult :=
  let stats0 := initStats
  let deadline :=
    match deadline0 with
    | some d => some d
    | none =>
        if 0 < jobTimeoutMinutes then some (env.now + (jobTimeoutMinutes : ℚ) * 60)
        else none
  if env.allAirports = [] then
    { stats := { stats0 with errors := stats0.errors + 1 }, retentionRan := false,
      deletedByRetention := 0, rfs := rfs }
  else
    let airports := select_airports env.allAirports archiveAll selected
    if airports = [] then
      { stats := stats0, retentionRan := false, deletedByRetention := 0, rfs := rfs }
    else if deadlineReached deadline env.now then
      let r := apply_retention retentionDays retentionMaxGb outputDirExists env.now rfs
      { stats := { stats0 with timedOut := true }, retentionRan := true,
        deletedByRetention := r.1, rfs := r.2 }
    else
      let statsAfter :=
        if useHistory then runHistoryPath env apiBase airports scanFs deadline stats0
        else runLegacyPath env apiBase deadline 0 airports stats0
      let r := apply_retention retentionDays retentionMaxGb outputDirExists env.now rfs
      { stats := statsAfter, retentionRan := true, deletedByRetention := r.1,
        rfs := r.2 }

/-! ## Scheduler run-lock (`_archive_job` of `app/scheduler.py`)

The shared state is the `running` flag and the `_running_since`
timestamp, both guarded by the state lock.  `archive_job` models one
invocation of the scheduled job to completion: config validation,
the busy/stale-lock decision, and — when the pass runs — the `finally`
block that always clears the flag. -/

structure SchedState where
  running : Bool
  runningSince : Option ℚ
deriving DecidableEq, Repr

inductive JobAction where
  | invalidConfig
  | skippedBusy
  | ran (staleCleared : Bool)
deriving DecidableEq, Repr

/-- `_archive_job`: invalid config returns before touching the lock; a
run in progress is skipped unless the recorded start is older than twice
the (at least one minute) scheduling interval, in which case the stale
lock is force-cleared and a new pass starts; every pass that runs ends
with the `finally` block clearing the flag.  (`running_since` equal to
`0` is falsy in Python, so its elapsed time is treated as `0`.) -/
def archive_job (cfgValid : Bool) (intervalMinutesCfg : Int) (now : ℚ)
    (st : SchedState) : SchedState × JobAction :=
  if ¬ cfgValid then (st, .invalidConfig)
  else
    let interval := max 1 intervalMinutesCfg
    let staleThreshold : ℚ := (interval : ℚ) * 2 * 60
    if st.running then
      match st.runningSince with
      | some t =>
          let elapsed : ℚ := if t ≠ 0 then now - t else 0
          if staleThreshold < elapsed then
            ({ running := false, runningSince := none }, .ran true)
          else (st, .skippedBusy)
      | none => (st, .skippedBusy)
    else ({ running := false, runningSince := none }, .ran false)

/-! ## Concrete instances

Closed inputs used by the witnesses (`wx...`) and the counterexamples
(`cx...`) of the claim theorems below. -/

/-- Concrete inputs for the C2 witness: one history webcam with a single
fresh frame, one frame already on disk. -/
def wxHistW : Webcam :=
  { index := some 1, name := none, imageUrl := none, url := none, src := none,
    snapshotUrl := none, historyEnabled := true, historyUrl := some "h" }

def wxRaw : RawFrame := { timestamp := some 5, url := some "u", timestampIso := none }

def wxFrame : HistFrame :=
  { url := "http://a/u", timestamp := 5, timestampIso := "", camIndex := 1 }

/-- Concrete inputs refuting the original C2 sentinel-ordering clause: a
webcam without history contributes a sentinel, and a history frame with
timestamp `2 ** 63` ties with the sentinel sort key; the stable sort
leaves the sentinel *before* the timestamped frame. -/
def cxNoHistW : Webcam :=
  { index := none, name := none, imageUrl := none, url := none, src := none,
    snapshotUrl := none, historyEnabled := false, historyUrl := none }

def cxHistW : Webcam :=
  { index := some 1, name := none, imageUrl := none, url := none, src := none,
    snapshotUrl := none, historyEnabled := true, historyUrl := some "h" }

def cxBigRaw : RawFrame :=
  { timestamp := some (2 ^ 63), url := some "u", timestampIso := none }

def cxBigFrame : HistFrame :=
  { url := "http://a/u", timestamp := 2 ^ 63, timestampIso := "", camIndex := 1 }

/-- A complete frame file (above the partial threshold). -/
def wxBigScanFile : ScanFile :=
  { dirParts := ["KSPB", "2024", "01", "01", "cam_0"],
    fname := "1700000000_0.jpg", size := 5000 }

/-- A 100-byte file at a frame archive path. -/
def cxTinyScanFile : ScanFile :=
  { dirParts := ["KSPB", "2024", "01", "01", "cam_0"],
    fname := "1700000000_0.jpg", size := 100 }

def wxDLCfg : SrcConfig :=
  { skipNextRateLimit := false, requestDelayDetected := none,
    requestDelayConfigured := none, maxRetries := 3, retryDelay := 1 }

def wxEmptyHeaders : Headers :=
  { contentType := none, contentDigest := none, contentMD5 := none,
    etag := none, contentRange := none }

def wxMD5Headers : Headers :=
  { contentType := some "image/jpeg", contentDigest := none,
    contentMD5 := some "AAAAAAAAAAAAAAAAAAAAAA==", etag := none,
    contentRange := none }

def wxDigestHeaders : Headers :=
  { contentType := some "image/png",
    contentDigest := some "md5=:bad:, sha-256=:AAAA:", contentMD5 := none,
    etag := none, contentRange := none }

def wxSaveTime : PyDateTime :=
  { year := 2024, month := 1, day := 2, hour := 3, minute := 4, second := 5,
    epoch := 1704164645 }

def wxSavePath : String :=
  saveImagePath "/archive" "kspb" "http://h/cam.jpg" wxSaveTime none

def wxSaveRec : FileRec := { content := [1, 2, 3], mode := 420, mtime := 9 }

def wxAirport : Airport := { code := some "KSPB", id := none, icao := none }

def wxPassEnv : PassEnv :=
  { allAirports := [wxAirport], webcamsOf := fun _ => [],
    histApi := fun _ _ => [], saveHistOk := fun _ _ => false,
    saveCurrOk := fun _ _ => false, imageUrlsOf := fun _ => [],
    saveUrlOk := fun _ _ => false, now := 1000,
    roundTimes := fun _ => 1000, legacyTimes := fun _ => 1000 }

def wxRetGb : GbValue := GbValue.num 1

def wxRetOld : RFile :=
  { path := "/a/f2", fname := "f2.jpg", mtime := 5, size := 1073741824 }

def wxRetNew : RFile :=
  { path := "/a/f1", fname := "f1.jpg", mtime := 10, size := 1073741824 }

/-! ## Supporting lemmas -/

theorem insertKeyed_perm {α κ : Type} [LinearOrder κ] (key : α → κ) (a : α)
    (l : List α) : (insertKeyed key a l).Perm (a :: l) := by
  induction l with
  | nil => simp [insertKeyed]
  | cons b t ih =>
      by_cases h : key a ≤ key b
      · simp [insertKeyed, h]
      · simp only [insertKeyed, h, if_neg, ite_false]
        exact ((ih.cons b).trans (List.Perm.swap a b t))

theorem sortKeyed_perm {α κ : Type} [LinearOrder κ] (key : α → κ)
    (l : List α) : (sortKeyed key l).Perm l := by
  induction l with
  | nil => simp [sortKeyed]
  | cons a t ih =>
      exact (insertKeyed_perm key a (sortKeyed key t)).trans (ih.cons a)

theorem insertKeyed_pairwise {α κ : Type} [LinearOrder κ] (key : α → κ)
    (a : α) (l : List α)
    (h : l.Pairwise (fun x y => key x ≤ key y)) :
    (insertKeyed key a l).Pairwise (fun x y => key x ≤ key y) := by
  induction l with
  | nil => simp [insertKeyed]
  | cons b t ih =>
      rcases List.pairwise_cons.mp h with ⟨hb, ht⟩
      by_cases hab : key a ≤ key b
      · rw [insertKeyed, if_pos hab]
        refine List.pairwise_cons.mpr ⟨?_, h⟩
        intro x hx
        rcases List.mem_cons.mp hx with hx | hx
        · exact hx ▸ hab
        · exact hab.trans (hb x hx)
      · rw [insertKeyed, if_neg hab]
        refine List.pairwise_cons.mpr ⟨?_, ih ht⟩
        intro x hx
        have hmem := (insertKeyed_perm key a t).mem_iff.mp hx
        rcases List.mem_cons.mp hmem with hx' | hx'
        · subst hx'
          exact le_of_not_le hab
        · exact hb x hx'

theorem sortKeyed_pairwise {α κ : Type} [LinearOrder κ] (key : α → κ)
    (l : List α) :
    (sortKeyed key l).Pairwise (fun x y => key x ≤ key y) := by
  induction l with
  | nil => simp [sortKeyed]
  | cons a t ih => exact insertKeyed_pairwise key a _ ih

theorem insertKeyed_count {α κ : Type} [LinearOrder κ] [BEq α]
    (key : α → κ) (a b : α) (l : List α) :
    (insertKeyed key a l).count b = (a :: l).count b := by
  induction l with
  | nil => rfl
  | cons c t ih =>
      by_cases h : key a ≤ key c
      · rw [insertKeyed, if_pos h]
      · rw [insertKeyed, if_neg h, List.count_cons, ih]
        rw [List.count_cons, List.count_cons, List.count_cons]
        omega

theorem sortKeyed_count {α κ : Type} [LinearOrder κ] [BEq α]
    (key : α → κ) (l : List α) (b : α) :
    (sortKeyed key l).count b = l.count b := by
  induction l with
  | nil => rfl
  | cons a t ih =>
      rw [sortKeyed, insertKeyed_count, List.count_cons, List.count_cons, ih]

/-- Extract the pairwise relation between two elements from a list
decomposition. -/
theorem rel_of_pairwise_decomp {α : Type} {R : α → α → Prop}
    {l l1 l2 l3 : List α} {x y : α}
    (hl : l = l1 ++ x :: l2 ++ y :: l3) (hp : l.Pairwise R) : R x y := by
  subst hl
  have hx1 : List.Sublist [x] (x :: l2) := List.Sublist.cons₂ x (List.nil_sublist l2)
  have hx2 : List.Sublist [x] (l1 ++ x :: l2) :=
    hx1.trans (List.sublist_append_right l1 (x :: l2))
  have hy1 : List.Sublist [y] (y :: l3) := List.Sublist.cons₂ y (List.nil_sublist l3)
  have hsub : List.Sublist ([x] ++ [y]) ((l1 ++ x :: l2) ++ y :: l3) :=
    hx2.append hy1
  have hp2 := hp.sublist hsub
  rcases List.pairwise_cons.mp hp2 with ⟨h1, _⟩
  exact h1 y (List.mem_singleton.mpr rfl)

/-- One round pops exactly the head of every airport whose queue is
non-empty, in rotation order. -/
theorem rrRound_fst_eq {α β : Type} (qs : List (β × List α)) :
    (rrRound qs).1 = qs.filterMap (fun p =>
      match p.2 with
      | [] => none
      | i :: _ => some (p.1, i)) := by
  induction qs with
  | nil => rfl
  | cons p rest ih =>
      rcases p with ⟨c, q⟩
      rcases q with _ | ⟨i, is⟩
      · simpa [rrRound] using ih
      · simpa [rrRound] using ih

/-- After a round, every airport whose queue was empty has been removed
from rotation, and every other airport keeps the tail of its queue. -/
theorem rrRound_snd_eq {α β : Type} (qs : List (β × List α)) :
    (rrRound qs).2 = qs.filterMap (fun p =>
      match p.2 with
      | [] => none
      | _ :: is => some (p.1, is)) := by
  induction qs with
  | nil => rfl
  | cons p rest ih =>
      rcases p with ⟨c, q⟩
      rcases q with _ | ⟨i, is⟩
      · simpa [rrRound] using ih
      · simpa [rrRound] using ih

theorem rrRun_cons_eq {α β : Type} (p : β × List α) (qs : List (β × List α)) :
    rrRun (p :: qs) = (rrRound (p :: qs)).1 :: rrRun (rrRound (p :: qs)).2 := by
  rw [rrRun]

theorem scanStep_snd_eq_filter (code : String) (fs : List ScanFile) :
    (scanStep code fs).2 = fs.filter (fun f => !scanDeletes code f) := by
  induction fs with
  | nil => rfl
  | cons f rest ih =>
      by_cases hc : scanConsiders code f
      · rcases hp : parseFrameName f.fname with _ | tc
        · simp [scanStep, hc, hp, scanDeletes, List.filter, ih]
        · by_cases hs : f.size < MIN_IMAGE_SIZE
          · simp [scanStep, hc, hp, hs, scanDeletes, List.filter, ih]
          · simp [scanStep, hc, hp, hs, scanDeletes, List.filter, ih]
      · simp [scanStep, hc, scanDeletes, List.filter, ih]

theorem mem_pendingUnsorted_frame {apiBase : String} {webcams : List Webcam}
    {histApi : Webcam → List RawFrame} {existing : List (Int × Int)}
    {w : Webcam} {f : HistFrame}
    (h : (w, some f) ∈ pendingUnsorted apiBase webcams histApi existing) :
    w ∈ webcams ∧ hasAddressableHistory w = true ∧
      f ∈ fetchHistoryFrames apiBase w (histApi w) ∧
      (f.timestamp, webcamIndex w) ∉ existing := by
  rcases List.mem_flatMap.mp h with ⟨x, hx, hmem⟩
  by_cases ha : hasAddressableHistory x = true
  · rw [pendingItemsFor, if_pos ha] at hmem
    rcases List.mem_filterMap.mp hmem with ⟨g, hg, heq⟩
    by_cases he : (g.timestamp, webcamIndex x) ∈ existing
    · rw [if_pos he] at heq
      exact absurd heq (by simp)
    · rw [if_neg he] at heq
      have hxw : x = w ∧ g = f := by
        constructor
        · exact congrArg Prod.fst (Option.some.inj heq)
        · exact Option.some.inj (congrArg Prod.snd (Option.some.inj heq))
      rcases hxw with ⟨hxw, hgf⟩
      subst hxw; subst hgf
      exact ⟨hx, ha, hg, he⟩
  · rw [pendingItemsFor, if_neg ha] at hmem
    rcases List.mem_singleton.mp hmem with heq
    exact absurd (congrArg Prod.snd heq) (by simp)

theorem count_sentinel_pendingItemsFor (apiBase : String)
    (histApi : Webcam → List RawFrame) (existing : List (Int × Int))
    (x w : Webcam) :
    (pendingItemsFor apiBase histApi existing x).count
        ((w, none) : Webcam × Option HistFrame)
      = if hasAddressableHistory w = true then 0
        else (if x = w then 1 else 0) := by
  by_cases ha : hasAddressableHistory x = true
  · rw [pendingItemsFor, if_pos ha]
    have hz : ((w, none) : Webcam × Option HistFrame) ∉
        (fetchHistoryFrames apiBase x (histApi x)).filterMap fun f =>
          if (f.timestamp, webcamIndex x) ∈ existing then none
          else some (x, some f) := by
      intro hmem
      rcases List.mem_filterMap.mp hmem with ⟨g, _, heq⟩
      by_cases he : (g.timestamp, webcamIndex x) ∈ existing
      · rw [if_pos he] at heq; exact absurd heq (by simp)
      · rw [if_neg he] at heq
        exact absurd (congrArg Prod.snd (Option.some.inj heq)) (by simp)
    rw [List.count_eq_zero.mpr hz]
    by_cases hw : x = w
    · subst hw; rw [if_pos ha]
    · by_cases haw : hasAddressableHistory w = true
      · rw [if_pos haw]
      · rw [if_neg haw, if_neg hw]
  · rw [pendingItemsFor, if_neg ha]
    by_cases hw : x = w
    · subst hw
      rw [if_neg ha, if_pos rfl]
      simp [List.count_singleton]
    · have hne : ((w, none) : Webcam × Option HistFrame) ≠ (x, none) := by
        intro hcontra
        exact hw (congrArg Prod.fst hcontra).symm
      rw [if_neg hw]
      by_cases haw : hasAddressableHistory w = true
      · rw [if_pos haw]
        simp [List.count_singleton, hne]
      · rw [if_neg haw]
        simp [List.count_singleton, hne]

theorem count_sentinel_pendingUnsorted (apiBase : String) (webcams : List Webcam)
    (histApi : Webcam → List RawFrame) (existing : List (Int × Int)) (w : Webcam) :
    (pendingUnsorted apiBase webcams histApi existing).count
        ((w, none) : Webcam × Option HistFrame)
      = if hasAddressableHistory w = true then 0 else webcams.count w := by
  induction webcams with
  | nil => by_cases h : hasAddressableHistory w = true <;> simp [pendingUnsorted, h]
  | cons x xs ih =>
      rw [pendingUnsorted, List.flatMap_cons, List.count_append]
      rw [pendingUnsorted] at ih
      rw [ih, count_sentinel_pendingItemsFor]
      by_cases haw : hasAddressableHistory w = true
      · simp [haw]
      · rw [if_neg haw, if_neg haw, if_neg haw, List.count_cons]
        by_cases hw : w = x
        · subst hw
          simp [Nat.add_comm]
        · have hw' : ¬ x = w := fun hc => hw hc.symm
          simp [hw, hw']

theorem sizePhaseTake_eq_take (toRemove : Int) :
    ∀ (removed : Int) (l : List RFile),
      sizePhaseTake toRemove removed l =
        l.take (sizePhaseTake toRemove removed l).length := by
  intro removed l
  induction l generalizing removed with
  | nil => simp [sizePhaseTake]
  | cons f rest ih =>
      rw [sizePhaseTake]
      by_cases hst : toRemove ≤ removed
      · rw [if_pos hst]
        rfl
      · rw [if_neg hst]
        simp only [List.length_cons, List.take_succ_cons]
        rw [← ih (removed + (f.size : Int))]

theorem sizePhaseTake_covers (toRemove : Int) :
    ∀ (removed : Int) (l : List RFile),
      toRemove ≤ removed + sumSizes (sizePhaseTake toRemove removed l) ∨
        sizePhaseTake toRemove removed l = l := by
  intro removed l
  induction l generalizing removed with
  | nil => right; rfl
  | cons f rest ih =>
      rw [sizePhaseTake]
      by_cases hst : toRemove ≤ removed
      · left
        rw [if_pos hst]
        simpa [sumSizes] using hst
      · rw [if_neg hst]
        rcases ih (removed + (f.size : Int)) with hcov | heq
        · left
          simp only [sumSizes, List.map_cons, List.sum_cons] at hcov ⊢
          omega
        · right
          rw [heq]

theorem sizePhaseTake_minimal (toRemove : Int) :
    ∀ (removed : Int) (l : List RFile) (j : Nat),
      j < (sizePhaseTake toRemove removed l).length →
      removed + sumSizes (l.take j) < toRemove := by
  intro removed l
  induction l generalizing removed with
  | nil => intro j hj; simp [sizePhaseTake] at hj
  | cons f rest ih =>
      intro j hj
      rw [sizePhaseTake] at hj
      by_cases hst : toRemove ≤ removed
      · rw [if_pos hst] at hj
        simp at hj
      · rw [if_neg hst] at hj
        rcases j with _ | j'
        · simpa [sumSizes] using lt_of_not_le hst
        · simp only [List.length_cons, Nat.succ_lt_succ_iff] at hj
          have hrec := ih (removed + (f.size : Int)) j' hj
          simp only [List.take_succ_cons, sumSizes, List.map_cons,
            List.sum_cons] at hrec ⊢
          omega

theorem sumSizes_take_drop (l : List RFile) (k : Nat) :
    sumSizes l = sumSizes (l.take k) + sumSizes (l.drop k) := by
  conv_lhs => rw [← List.take_append_drop k l]
  simp [sumSizes]

/-- `"1TB"`-style budgets convert to 1024 GB. -/
theorem parse_storage_gb_1TB : parse_storage_gb "1TB" = 1024 := by
  have h1 : parse_storage_gb "1TB" =
      max 0 ((1 : ℚ) * ((1 : Nat) : ℚ) * 1024) := rfl
  rw [h1]
  norm_num

/-- `apply_retention` with the age phase disabled and the archive root
present reduces to the size phase. -/
theorem apply_retention_days0_eq (gb : GbValue) (now : ℚ) (fs : List RFile)
    (hb : 0 < retentionMaxBytes (gbToRat gb))
    (hover : 0 < retOverage gb fs) :
    apply_retention 0 gb true now fs =
      ((retVictims gb fs).length,
       fs.filter (fun f => !(((retVictims gb fs).map RFile.path).contains f.path))) := by
  have h1 : ¬ ((0 : Int) ≤ 0 ∧ retentionMaxBytes (gbToRat gb) ≤ 0) := by
    rintro ⟨-, hc⟩
    omega
  have h2 : ¬ ((0 : Int) < 0) := by omega
  have h4 : 0 < sumSizes (sortKeyed (fun f => f.mtime) (collectArchiveFiles fs)) -
      retentionMaxBytes (gbToRat gb) := hover
  simp only [apply_retention, h1, if_false, not_true, h2, hb, if_true, h4,
    retVictims, retOverage, retSorted]
  simp

theorem wxRetMaxBytes : retentionMaxBytes (gbToRat wxRetGb) = 1073741824 := by
  rw [retentionMaxBytes, if_pos (by norm_num [gbToRat, wxRetGb])]
  have h1 : gbToRat wxRetGb * ((BYTES_PER_GIB : Nat) : ℚ) =
      (((1073741824 : Nat) : ℚ)) := by
    norm_num [gbToRat, wxRetGb, BYTES_PER_GIB]
  rw [h1, Int.floor_natCast]
  rfl

/-! ## Claim theorems -/

/-- **C1**: round-robin fairness of `_run_archive_round_robin`.  Every
round pops exactly the head (oldest) item of each airport whose queue is
non-empty, in rotation order, and drops airports with empty queues from
rotation; with no deadline the run simply repeats this round after round.
Consequently, for an airport `B` with one pending item and an airport `A`
with five, `B`'s item is processed already in round 1 (no later than
round 2), at which point `A` still holds four pending items — so `B` is
served strictly before `A`'s queue is drained. -/
theorem C1_round_robin_fairness {α β : Type} (qs : List (β × List α))
    (A B : β) (b : α) (la : List α)
    (hB : (B, [b]) ∈ qs) (hA : (A, la) ∈ qs) (h5 : la.length = 5) :
    (∀ qs' : List (β × List α),
        (rrRound qs').1 = qs'.filterMap (fun p =>
          match p.2 with
          | [] => none
          | i :: _ => some (p.1, i)) ∧
        (rrRound qs').2 = qs'.filterMap (fun p =>
          match p.2 with
          | [] => none
          | _ :: is => some (p.1, is))) ∧
    rrRun qs = (rrRound qs).1 :: rrRun (rrRound qs).2 ∧
    (B, b) ∈ (rrRound qs).1 ∧
    ((A, la.tail) ∈ (rrRound qs).2 ∧ la.tail ≠ []) := by
  refine ⟨fun qs' => ⟨rrRound_fst_eq qs', rrRound_snd_eq qs'⟩, ?_, ?_, ?_, ?_⟩
  · rcases qs with _ | ⟨p, rest⟩
    · exact absurd hB (List.not_mem_nil _)
    · exact rrRun_cons_eq p rest
  · rw [rrRound_fst_eq]
    exact List.mem_filterMap.mpr ⟨(B, [b]), hB, rfl⟩
  · rcases la with _ | ⟨i, rest⟩
    · exact absurd h5 (by simp)
    · rw [rrRound_snd_eq]
      exact List.mem_filterMap.mpr ⟨(A, i :: rest), hA, rfl⟩
  · rcases la with _ | ⟨i, rest⟩
    · exact absurd h5 (by simp)
    · intro hc
      rw [List.tail_cons] at hc
      rw [hc] at h5
      exact absurd h5 (by simp)

theorem C1_round_robin_fairness_witness :
    ((0 : Nat), (10 : Nat)) ∈
        (rrRound [((0 : Nat), [(10 : Nat)]), (1, [1, 2, 3, 4, 5])]).1 ∧
    ((1 : Nat), [(2 : Nat), 3, 4, 5]) ∈
        (rrRound [((0 : Nat), [(10 : Nat)]), (1, [1, 2, 3, 4, 5])]).2 := by
  have h := C1_round_robin_fairness
    [((0 : Nat), [(10 : Nat)]), (1, [1, 2, 3, 4, 5])] 1 0 10 [1, 2, 3, 4, 5]
    (by decide) (by decide) (by decide)
  exact ⟨h.2.2.1, h.2.2.2.1⟩

/-- **C2** (amended): the pending queue built per airport by
`_collect_pending_per_airport` contains only history frames of
history-addressable webcams whose `(timestamp, camera_index)` pair is not
among the frames already on disk; it carries exactly one sentinel
(`frame = None`) per webcam without an addressable history and none for
webcams with one; it is sorted ascending by the pending sort key (a
frame's timestamp, `2 ** 63` for a sentinel); and whenever a sentinel
precedes a timestamped history frame in the queue, that frame's timestamp
is at least `2 ** 63`.  (The original claim — every sentinel sorts after
*every* timestamped history frame — fails for frames with timestamps
`≥ 2 ** 63`, which tie with or exceed the sentinel key; see the
counterexample.) -/
theorem C2_pending_queue (apiBase : String) (webcams : List Webcam)
    (histApi : Webcam → List RawFrame) (existing : List (Int × Int)) :
    (∀ w f, (w, some f) ∈ collectPendingForAirport apiBase webcams histApi existing →
        w ∈ webcams ∧ hasAddressableHistory w = true ∧
        f ∈ fetchHistoryFrames apiBase w (histApi w) ∧
        (f.timestamp, webcamIndex w) ∉ existing) ∧
    (∀ w, hasAddressableHistory w = false →
        (collectPendingForAirport apiBase webcams histApi existing).count (w, none)
          = webcams.count w) ∧
    (∀ w, hasAddressableHistory w = true →
        (collectPendingForAirport apiBase webcams histApi existing).count (w, none)
          = 0) ∧
    (collectPendingForAirport apiBase webcams histApi existing).Pairwise
      (fun a b => pendingSortKey a ≤ pendingSortKey b) ∧
    (∀ l1 l2 l3 w w' f,
        collectPendingForAirport apiBase webcams histApi existing
          = l1 ++ (w, none) :: l2 ++ (w', some f) :: l3 →
        SENTINEL_SORT_KEY ≤ f.timestamp) := by
  refine ⟨?_, ?_, ?_, sortKeyed_pairwise _ _, ?_⟩
  · intro w f hmem
    have hperm := sortKeyed_perm pendingSortKey
      (pendingUnsorted apiBase webcams histApi existing)
    exact mem_pendingUnsorted_frame (hperm.mem_iff.mp hmem)
  · intro w hw
    rw [collectPendingForAirport, sortKeyed_count,
      count_sentinel_pendingUnsorted, if_neg (by simp [hw])]
  · intro w hw
    rw [collectPendingForAirport, sortKeyed_count,
      count_sentinel_pendingUnsorted, if_pos hw]
  · intro l1 l2 l3 w w' f hdecomp
    have hp := sortKeyed_pairwise pendingSortKey
      (pendingUnsorted apiBase webcams histApi existing)
    have := rel_of_pairwise_decomp hdecomp hp
    simpa [pendingSortKey] using this

theorem C2_pending_queue_witness :
    wxHistW ∈ [wxHistW] ∧ hasAddressableHistory wxHistW = true ∧
    wxFrame ∈ fetchHistoryFrames "http://a" wxHistW [wxRaw] ∧
    ((5 : Int), (1 : Int)) ∉ [((3 : Int), (1 : Int))] :=
  (C2_pending_queue "http://a" [wxHistW] (fun _ => [wxRaw]) [(3, 1)]).1
    wxHistW wxFrame (by decide)

/-- **C2 counterexample**: in the queue built for webcams
`[cxNoHistW, cxHistW]` with one history frame of timestamp `2 ** 63`, the
sentinel item occupies position 0 and the timestamped history frame
position 1 — the sentinel does *not* sort after every timestamped history
frame, refuting the claim as stated. -/
theorem C2_counterexample :
    collectPendingForAirport "http://a" [cxNoHistW, cxHistW]
        (fun w => if w.historyEnabled then [cxBigRaw] else []) []
      = [(cxNoHistW, none), (cxHistW, some cxBigFrame)] := by
  decide

/-- **C3**: a 404/410 response makes `download_image_to_file` delete any
partial file at the destination, set the one-shot
`_skip_next_rate_limit` flag in the config, and return failure without
any further retry attempt (exactly one request is issued from that
attempt on); and the flag is one-shot — the very next `_rate_limit` call
performs no sleep and clears it, while a call on a cleared flag sleeps
whenever the effective delay is positive. -/
theorem C3_gone_resource_fail_fast
    (hashFn : String → List Nat → List Nat) (fetch : Nat → Fetch)
    (remaining attempt : Nat) (cfg : SrcConfig) (file : Option (List Nat))
    (existingSize reqs : Nat) (status : Nat) (h : Headers) (body : List Nat)
    (hresp : fetch attempt = .ok status h body)
    (hstatus : status = 404 ∨ status = 410) :
    (downloadLoop hashFn fetch (remaining + 1) attempt cfg file existingSize reqs =
      { ok := false, file := none,
        cfg := { (rate_limit cfg).1 with skipNextRateLimit := true },
        requests := reqs + 1 }) ∧
    (∀ c : SrcConfig, c.skipNextRateLimit = true →
      rate_limit c = ({ c with skipNextRateLimit := false }, none)) ∧
    (∀ c : SrcConfig, c.skipNextRateLimit = false →
      0 < c.requestDelayDetected.getD
        (c.requestDelayConfigured.getD DEFAULT_REQUEST_DELAY_SECONDS) →
      (rate_limit c).2 = some (c.requestDelayDetected.getD
        (c.requestDelayConfigured.getD DEFAULT_REQUEST_DELAY_SECONDS))) := by
  refine ⟨?_, ?_, ?_⟩
  · simp only [downloadLoop, hresp]
    rw [if_pos hstatus]
  · intro c hc
    rw [rate_limit, if_pos hc]
  · intro c hc hd
    rw [rate_limit, if_neg (by simp [hc])]
    simp only [if_pos hd]

theorem C3_gone_resource_fail_fast_witness :
    downloadLoop (fun _ _ => []) (fun _ => .ok 404 wxEmptyHeaders [])
        (2 + 1) 1 wxDLCfg (some [7]) 0 0 =
      { ok := false, file := none,
        cfg := { (rate_limit wxDLCfg).1 with skipNextRateLimit := true },
        requests := 1 } :=
  (C3_gone_resource_fail_fast (fun _ _ => []) (fun _ => .ok 404 wxEmptyHeaders [])
    2 1 wxDLCfg (some [7]) 0 0 404 wxEmptyHeaders [] rfl (Or.inl rfl)).1

/-- **C4**: mismatch is retryable, exhaustion deletes.  A 206 response
whose final file size differs from the Content-Range declared total, or
a 200 response whose body hash differs from the selected integrity
header's digest, deletes the destination file and continues as a
retryable failure — the rest of the download is exactly the loop with
one fewer attempt, the file gone and the resume offset reset; and when
the attempts are exhausted the loop deletes any partial file and reports
failure. -/
theorem C4_mismatch_retry_exhaustion_deletes
    (hashFn : String → List Nat → List Nat) (fetch : Nat → Fetch)
    (remaining attempt : Nat) (cfg : SrcConfig) (file : Option (List Nat))
    (existingSize reqs : Nat) :
    (∀ h body total,
      fetch attempt = .ok 206 h body →
      contentTypeIsImage h = true →
      parseContentRangeTotal h = some total →
      (if 0 < existingSize then file.getD [] ++ body else body).length ≠ total →
      downloadLoop hashFn fetch (remaining + 1) attempt cfg file existingSize reqs =
        downloadLoop hashFn fetch remaining (attempt + 1) (rate_limit cfg).1
          none 0 (reqs + 1)) ∧
    (∀ h body algo digest,
      fetch attempt = .ok 200 h body →
      contentTypeIsImage h = true →
      getIntegrityCheck h = some (algo, digest) →
      hashFn algo body ≠ digest →
      downloadLoop hashFn fetch (remaining + 1) attempt cfg file existingSize reqs =
        downloadLoop hashFn fetch remaining (attempt + 1) (rate_limit cfg).1
          none 0 (reqs + 1)) ∧
    (downloadLoop hashFn fetch 0 attempt cfg file existingSize reqs =
      { ok := false, file := none, cfg := cfg, requests := reqs }) := by
  refine ⟨?_, ?_, rfl⟩
  · intro h body total hresp himg htotal hmis
    by_cases hex : 0 < existingSize
    · rw [if_pos hex] at hmis
      simp [downloadLoop, hresp, himg, htotal, hex]
      intro hc
      exact absurd hc (by simpa using hmis)
    · rw [if_neg hex] at hmis
      simp [downloadLoop, hresp, himg, htotal, hex, hmis]
  · intro h body algo digest hresp himg hint hmis
    simp [downloadLoop, hresp, himg, hint, hmis]

theorem C4_mismatch_retry_exhaustion_deletes_witness :
    downloadLoop (fun _ _ => [9]) (fun _ => .ok 200 wxMD5Headers [1])
        (1 + 1) 1 wxDLCfg (some [7]) 0 0 =
      downloadLoop (fun _ _ => [9]) (fun _ => .ok 200 wxMD5Headers [1])
        1 2 (rate_limit wxDLCfg).1 none 0 1 :=
  (C4_mismatch_retry_exhaustion_deletes (fun _ _ => [9])
    (fun _ => .ok 200 wxMD5Headers [1]) 1 1 wxDLCfg (some [7]) 0 0).2.1
    wxMD5Headers [1] "md5" [0, 0, 0, 0, 0, 0, 0, 0, 0, 0, 0, 0, 0, 0, 0, 0]
    rfl (by decide) (by decide) (by decide)

/-- **C5**: integrity-header selection.  `_get_integrity_check` uses the
parsed Content-Digest when one is available; otherwise Content-MD5;
otherwise an ETag, and the ETag contributes only when, stripped of
whitespace and quotes, it is exactly 32 hexadecimal characters; within
Content-Digest, a decodable sha-256 token wins, then sha-512, then md5.
With none of the headers usable, no integrity check is selected, and a
full 200 download is accepted unverified — the result is success
independent of the hash oracle, so no integrity comparison happens. -/
theorem C5_integrity_selection_order (h : Headers) :
    (∀ p, parseContentDigest h = some p → getIntegrityCheck h = some p) ∧
    (∀ d, parseContentDigest h = none → parseContentMD5 h = some d →
      getIntegrityCheck h = some ("md5", d)) ∧
    (∀ d, parseContentDigest h = none → parseContentMD5 h = none →
      parseEtagAsMD5 h = some d → getIntegrityCheck h = some ("md5", d)) ∧
    (parseContentDigest h = none → parseContentMD5 h = none →
      parseEtagAsMD5 h = none → getIntegrityCheck h = none) ∧
    (∀ raw d, h.contentDigest = some raw →
      digestToken "sha-256" raw = some d →
      parseContentDigest h = some ("sha-256", d)) ∧
    (∀ raw d, h.contentDigest = some raw →
      digestToken "sha-256" raw = none → digestToken "sha-512" raw = some d →
      parseContentDigest h = some ("sha-512", d)) ∧
    (∀ raw d, h.contentDigest = some raw →
      digestToken "sha-256" raw = none → digestToken "sha-512" raw = none →
      digestToken "md5" raw = some d →
      parseContentDigest h = some ("md5", d)) ∧
    (∀ raw d, h.etag = some raw → parseEtagAsMD5 h = some d →
      (strippedEtag raw).length = 32 ∧ (strippedEtag raw).all isHexChar = true ∧
      d = hexPairsToBytes (strippedEtag raw)) ∧
    (∀ (hashFn : String → List Nat → List Nat) (fetch : Nat → Fetch)
        (remaining attempt : Nat) (cfg : SrcConfig) (file : Option (List Nat))
        (existingSize reqs : Nat) (body : List Nat),
      fetch attempt = .ok 200 h body →
      contentTypeIsImage h = true →
      getIntegrityCheck h = none →
      downloadLoop hashFn fetch (remaining + 1) attempt cfg file existingSize reqs =
        { ok := true, file := some body, cfg := (rate_limit cfg).1,
          requests := reqs + 1 }) := by
  have hraw_ne : ∀ raw : String, raw = "" → ∀ algo : String,
      digestToken algo raw = none := by
    intro raw hraw algo
    subst hraw
    rw [digestToken]
    have : searchDigest algo.toList ("" : String).toList = none := rfl
    rw [this]
  refine ⟨?_, ?_, ?_, ?_, ?_, ?_, ?_, ?_, ?_⟩
  · intro p hp
    rw [getIntegrityCheck, hp]
  · intro d hcd hmd5
    rw [getIntegrityCheck, hcd, hmd5]
  · intro d hcd hmd5 het
    rw [getIntegrityCheck, hcd, hmd5, het]
  · intro hcd hmd5 het
    rw [getIntegrityCheck, hcd, hmd5, het]
  · intro raw d hraw htok
    by_cases hre : raw = ""
    · exact absurd htok (by rw [hraw_ne raw hre]; simp)
    · simp [parseContentDigest, hraw, hre, digestAlgos, firstDigestAlgo, htok]
  · intro raw d hraw htok1 htok2
    by_cases hre : raw = ""
    · exact absurd htok2 (by rw [hraw_ne raw hre]; simp)
    · simp [parseContentDigest, hraw, hre, digestAlgos, firstDigestAlgo,
        htok1, htok2]
  · intro raw d hraw htok1 htok2 htok3
    by_cases hre : raw = ""
    · exact absurd htok3 (by rw [hraw_ne raw hre]; simp)
    · simp [parseContentDigest, hraw, hre, digestAlgos, firstDigestAlgo,
        htok1, htok2, htok3]
  · intro raw d hraw hpet
    simp only [parseEtagAsMD5, hraw] at hpet
    by_cases hre : raw = ""
    · rw [if_pos hre] at hpet
      exact absurd hpet (by simp)
    · rw [if_neg hre] at hpet
      by_cases hcond : (strippedEtag raw).length = 32 ∧
          ((strippedEtag raw).all isHexChar) = true
      · rw [if_pos hcond] at hpet
        exact ⟨hcond.1, hcond.2, (Option.some.inj hpet).symm⟩
      · rw [if_neg hcond] at hpet
        exact absurd hpet (by simp)
  · intro hashFn fetch remaining attempt cfg file existingSize reqs body
      hresp himg hnone
    simp [downloadLoop, hresp, himg, hnone]

theorem C5_integrity_selection_order_witness :
    getIntegrityCheck wxDigestHeaders = some ("sha-256", [0, 0, 0]) :=
  (C5_integrity_selection_order wxDigestHeaders).1 ("sha-256", [0, 0, 0]) (by decide)

/-- **C6**: the retention size phase.  With the age phase disabled, the
archive root present, a positive byte budget (the configured GB/TB value
normalized to bytes, `"1TB"`-style strings converting to 1024 GB) and
the total size of the non-`metadata.json` files exceeding it,
`apply_retention` deletes exactly an initial segment of the
ascending-mtime ordering of those files: the deleted bytes reach the
overage, every proper initial segment falls short of it (so exactly
enough oldest files are removed), the files left total at or under the
budget, and no `metadata.json` file is ever deleted. -/
theorem C6_retention_size_phase (gb : GbValue) (now : ℚ) (fs : List RFile)
    (hnodup : (fs.map RFile.path).Nodup)
    (hb : 0 < retentionMaxBytes (gbToRat gb))
    (hover : 0 < retOverage gb fs) :
    (apply_retention 0 gb true now fs =
      ((retVictims gb fs).length,
       fs.filter (fun f => !(((retVictims gb fs).map RFile.path).contains f.path)))) ∧
    retVictims gb fs = (retSorted fs).take (retVictims gb fs).length ∧
    (retSorted fs).Pairwise (fun a b => a.mtime ≤ b.mtime) ∧
    retOverage gb fs ≤ sumSizes (retVictims gb fs) ∧
    (∀ j < (retVictims gb fs).length,
      sumSizes ((retSorted fs).take j) < retOverage gb fs) ∧
    sumSizes ((retSorted fs).drop (retVictims gb fs).length) ≤
      retentionMaxBytes (gbToRat gb) ∧
    (∀ f ∈ fs, f.fname = "metadata.json" →
      f ∈ (apply_retention 0 gb true now fs).2) ∧
    parse_storage_gb "1TB" = 1024 := by
  have heq := apply_retention_days0_eq gb now fs hb hover
  have htake : retVictims gb fs = (retSorted fs).take (retVictims gb fs).length :=
    sizePhaseTake_eq_take (retOverage gb fs) 0 (retSorted fs)
  have hcover : retOverage gb fs ≤ sumSizes (retVictims gb fs) := by
    rcases sizePhaseTake_covers (retOverage gb fs) 0 (retSorted fs) with hcov | hall
    · simpa [retVictims] using hcov
    · rw [retVictims, hall, retOverage]
      omega
  refine ⟨heq, htake, sortKeyed_pairwise _ _, hcover, ?_, ?_, ?_, parse_storage_gb_1TB⟩
  · intro j hj
    have := sizePhaseTake_minimal (retOverage gb fs) 0 (retSorted fs) j
      (by simpa [retVictims] using hj)
    simpa using this
  · have hsplit := sumSizes_take_drop (retSorted fs) (retVictims gb fs).length
    rw [← htake] at hsplit
    have hov : retOverage gb fs = sumSizes (retSorted fs) -
        retentionMaxBytes (gbToRat gb) := rfl
    omega
  · intro f hf hmeta
    rw [heq]
    refine List.mem_filter.mpr ⟨hf, ?_⟩
    simp only [Bool.not_eq_true']
    rw [List.contains_eq_any_beq]
    simp only [List.any_eq_false]
    intro p hp
    rcases List.mem_map.mp hp with ⟨v, hv, hvp⟩
    have hvs : v ∈ sortKeyed (fun f => f.mtime) (collectArchiveFiles fs) := by
      have hv' : v ∈ retVictims gb fs := hv
      rw [htake] at hv'
      exact List.take_subset _ _ hv'
    have hvc : v ∈ collectArchiveFiles fs :=
      (sortKeyed_perm (fun f => f.mtime) (collectArchiveFiles fs)).mem_iff.mp hvs
    rcases List.mem_filter.mp hvc with ⟨hvfs, hvname⟩
    intro hbeq
    have hfp : f.path = p := by simpa using hbeq
    have hpaths : v.path = f.path := by rw [hvp, hfp]
    have hvf : v = f := List.inj_on_of_nodup_map hnodup hvfs hf hpaths
    rw [hvf, hmeta] at hvname
    simp at hvname

theorem C6_retention_size_phase_witness :
    apply_retention 0 wxRetGb true 0 [wxRetNew, wxRetOld] =
      ((retVictims wxRetGb [wxRetNew, wxRetOld]).length,
       [wxRetNew, wxRetOld].filter (fun f =>
         !(((retVictims wxRetGb [wxRetNew, wxRetOld]).map RFile.path).contains f.path))) :=
  (C6_retention_size_phase wxRetGb 0 [wxRetNew, wxRetOld]
    (by decide)
    (by rw [wxRetMaxBytes]; norm_num)
    (by
      rw [retOverage, wxRetMaxBytes]
      have h2 : retSorted [wxRetNew, wxRetOld] = [wxRetOld, wxRetNew] := by decide
      rw [h2]
      decide)).1

/-- **C7**: dedup idempotence of the saves.  When the destination path a
save computes already holds a file whose content hash equals the hash of
the bytes being saved, `save_image`/`save_history_image` return the
existing path and leave the filesystem — the file's bytes, mode and
mtime — entirely untouched. -/
theorem C7_save_dedup (md5hex : List Nat → String) (fs : SaveFS) (data : List Nat)
    (url airportCode outputDir : String) (t : PyDateTime)
    (cameraName : Option String) (camIndex frameTs : Int) :
    (∀ r, fsLookup fs (saveImagePath outputDir airportCode url t cameraName) = some r →
      md5hex r.content = md5hex data →
      save_image md5hex fs data url airportCode outputDir t cameraName =
        (fs, some (saveImagePath outputDir airportCode url t cameraName))) ∧
    (∀ r, fsLookup fs (saveHistoryPath outputDir airportCode camIndex frameTs cameraName)
        = some r →
      md5hex r.content = md5hex data →
      save_history_image md5hex fs data airportCode camIndex frameTs outputDir cameraName =
        (fs, some (saveHistoryPath outputDir airportCode camIndex frameTs cameraName))) := by
  constructor
  · intro r hr hh
    rw [save_image, hr]
    simp [hh]
  · intro r hr hh
    rw [save_history_image, hr]
    simp [hh]

theorem C7_save_dedup_witness :
    save_image (fun l => toString l.length) [(wxSavePath, wxSaveRec)] [1, 2, 3]
        "http://h/cam.jpg" "kspb" "/archive" wxSaveTime none =
      ([(wxSavePath, wxSaveRec)], some wxSavePath) :=
  (C7_save_dedup (fun l => toString l.length) [(wxSavePath, wxSaveRec)] [1, 2, 3]
    "http://h/cam.jpg" "kspb" "/archive" wxSaveTime none 0 0).1
    wxSaveRec (by decide) rfl

/-- **C8**: a pass whose deadline is already in the past at the deadline
check (after a non-empty airport list was fetched and a non-empty
selection made) returns the fresh stats with `timed_out = true` — no
downloads attempted, all counters zero — and still applies the retention
pass before returning. -/
theorem C8_past_deadline_pass (env : PassEnv) (apiBase : String)
    (archiveAll : Bool) (selected : List String) (useHistory : Bool)
    (jobTimeoutMinutes retentionDays : Int) (retentionMaxGb : GbValue)
    (outputDirExists : Bool) (scanFs : List ScanFile) (rfs : List RFile) (d : ℚ)
    (hair : env.allAirports ≠ [])
    (hsel : select_airports env.allAirports archiveAll selected ≠ [])
    (hpast : d ≤ env.now) :
    run_archive env apiBase archiveAll selected useHistory jobTimeoutMinutes
        retentionDays retentionMaxGb outputDirExists scanFs rfs (some d) =
      { stats := { initStats with timedOut := true }, retentionRan := true,
        deletedByRetention :=
          (apply_retention retentionDays retentionMaxGb outputDirExists env.now rfs).1,
        rfs :=
          (apply_retention retentionDays retentionMaxGb outputDirExists env.now rfs).2 } := by
  rw [run_archive]
  rw [if_neg hair, if_neg hsel, if_pos (by simp [deadlineReached, hpast])]

theorem C8_past_deadline_pass_witness :
    run_archive wxPassEnv "http://a" true [] true 0 0 (GbValue.num 0) true [] [] (some 999) =
      { stats := { initStats with timedOut := true }, retentionRan := true,
        deletedByRetention := (apply_retention 0 (GbValue.num 0) true 1000 []).1,
        rfs := (apply_retention 0 (GbValue.num 0) true 1000 []).2 } :=
  C8_past_deadline_pass wxPassEnv "http://a" true [] true 0 0 (GbValue.num 0) true [] []
    999 (by decide) (by decide) (by norm_num [wxPassEnv])

/-- **C9** (amended): the existing-frame scan `_get_existing_frames`
removes exactly the files that lie below the airport's archive tree,
parse as `{ts}_{cam}` frame files, and are smaller than
`MIN_IMAGE_SIZE` bytes (partial downloads); every file of at least
`MIN_IMAGE_SIZE` bytes — in particular every completed stored frame — is
left in place, so apart from this partial-file cleanup the scan deletes
nothing.  (The original claim — no operation other than retention removes
a file at a frame's archive path — fails for frame files smaller than
`MIN_IMAGE_SIZE`; see the counterexample.) -/
theorem C9_scan_deletes_only_partial_frames (fs : List ScanFile) (code : String) :
    (getExistingFrames fs code).2 = fs.filter (fun f => !scanDeletes code f) ∧
    (∀ f ∈ fs, MIN_IMAGE_SIZE ≤ f.size → f ∈ (getExistingFrames fs code).2) ∧
    (∀ f ∈ fs, f ∉ (getExistingFrames fs code).2 →
        scanConsiders code f = true ∧ (parseFrameName f.fname).isSome = true ∧
        f.size < MIN_IMAGE_SIZE) := by
  refine ⟨scanStep_snd_eq_filter code fs, ?_, ?_⟩
  · intro f hf hsize
    rw [getExistingFrames, scanStep_snd_eq_filter]
    refine List.mem_filter.mpr ⟨hf, ?_⟩
    have : scanDeletes code f = false := by
      rw [scanDeletes]
      simp only [Bool.and_eq_false_iff]
      right
      simpa using Nat.not_lt.mpr hsize
    rw [this]
    rfl
  · intro f hf hnot
    rw [getExistingFrames, scanStep_snd_eq_filter] at hnot
    have hdel : scanDeletes code f = true := by
      by_contra hc
      have : scanDeletes code f = false := Bool.eq_false_iff.mpr hc
      exact hnot (List.mem_filter.mpr ⟨hf, by rw [this]; rfl⟩)
    rw [scanDeletes] at hdel
    simp only [Bool.and_eq_true, decide_eq_true_eq] at hdel
    exact ⟨hdel.1.1, hdel.1.2, hdel.2⟩

theorem C9_scan_deletes_only_partial_frames_witness :
    wxBigScanFile ∈ (getExistingFrames [wxBigScanFile] "KSPB").2 :=
  (C9_scan_deletes_only_partial_frames [wxBigScanFile] "KSPB").2.1
    wxBigScanFile (by decide) (by decide)

/-- **C9 counterexample**: a 100-byte file stored at a frame archive path
(`KSPB/2024/01/01/cam_0/1700000000_0.jpg`) is removed by the
existing-frame scan itself — an operation of the pass other than
`apply_retention` — refuting the claim that only the RetentionManager
deletes files at frame archive paths.  (The download pipeline happily
stores frames below `MIN_IMAGE_SIZE`, so such a file can be a completed
stored frame.) -/
theorem C9_counterexample :
    parseFrameName cxTinyScanFile.fname = some (1700000000, 0) ∧
    (getExistingFrames [cxTinyScanFile] "KSPB").2 = [] := by
  decide

/-- **C10**: stale-lock self-healing of the scheduler.  A new pass
requested while the running flag is set is skipped (state untouched)
unless the elapsed time since the recorded start exceeds twice the
effective scheduling interval, in which case the stale lock is
force-cleared and the new pass runs; and every pass that runs — however
it ends — leaves the running flag cleared, so the scheduler is never
permanently locked out. -/
theorem C10_stale_lock_self_healing (cfgValid : Bool) (intervalMinutesCfg : Int)
    (now t : ℚ) (st : SchedState) :
    (cfgValid = true → st.running = true → st.runningSince = some t → t ≠ 0 →
      now - t ≤ ((max 1 intervalMinutesCfg : Int) : ℚ) * 2 * 60 →
      archive_job cfgValid intervalMinutesCfg now st = (st, .skippedBusy)) ∧
    (cfgValid = true → st.running = true → st.runningSince = some t → t ≠ 0 →
      ((max 1 intervalMinutesCfg : Int) : ℚ) * 2 * 60 < now - t →
      archive_job cfgValid intervalMinutesCfg now st =
        ({ running := false, runningSince := none }, .ran true)) ∧
    (∀ b, (archive_job cfgValid intervalMinutesCfg now st).2 = .ran b →
      (archive_job cfgValid intervalMinutesCfg now st).1 =
        { running := false, runningSince := none }) := by
  refine ⟨?_, ?_, ?_⟩
  · intro hv hr hs ht hle
    have h1 : (if t ≠ 0 then now - t else 0) = now - t := if_pos ht
    have h2 : ¬ (((max 1 intervalMinutesCfg : Int) : ℚ) * 2 * 60 < now - t) :=
      not_lt.mpr hle
    simp [archive_job, hv, hr, hs, h1, h2]
    push_cast at hle
    linarith
  · intro hv hr hs ht hlt
    have h1 : (if t ≠ 0 then now - t else 0) = now - t := if_pos ht
    simp [archive_job, hv, hr, hs, h1, hlt]
    push_cast at hlt
    linarith
  · intro b
    simp only [archive_job]
    repeat' split
    all_goals first
      | (intro _; rfl)
      | (intro hc; exact absurd hc (by simp))

theorem C10_stale_lock_self_healing_witness :
    archive_job true 15 1901 { running := true, runningSince := some 100 } =
      ({ running := false, runningSince := none }, .ran true) :=
  (C10_stale_lock_self_healing true 15 1901 100
    { running := true, runningSince := some 100 }).2.1
    rfl rfl rfl (by norm_num) (by norm_num)

end AWX
